import Mathlib

/-
  Verification development for the sql-etl-pipeline repository.

  Shallow embedding of the core modules:
    - src/data_validator.py   (DataValidator.validate_data, DataValidator.clean_data)
    - src/etl_pipeline.py     (ETLPipeline transforms, load_data, run_full_pipeline)

  Modelling conventions:
    - A pandas DataFrame is a rectangular table: a list of columns (name and
      dtype) plus a list of rows, each row a list of cells aligned with the
      column list.
    - A cell is None/NaN (both pandas-null), a string, a finite rational
      number, or one of the two float infinities.  Finite float arithmetic is
      modelled exactly over the rationals; the claims under study never
      depend on float rounding error, only on the null/inf special cases.
    - Library behaviour that the claims do not depend on (pandas date
      parsing, to_numeric string parsing) is abstracted into an environment
      of oracles, so every theorem quantifies over it.
    - Python exceptions are modelled with Except / an error flag; the
      validator threads a (report, pending-exception) pair exactly like the
      single try/except block in validate_data.
-/

namespace ETL

/-- Python whitespace characters (str.strip strips these: space, tab,
newline, carriage return, vertical tab, form feed), by code point. -/
def isWS (c : Char) : Bool :=
  c.toNat = 32 || c.toNat = 9 || c.toNat = 10 || c.toNat = 13 || c.toNat = 11 || c.toNat = 12

/-- Strip leading and trailing whitespace from a character list (Python str.strip). -/
def stripChars (l : List Char) : List Char :=
  ((l.dropWhile isWS).reverse.dropWhile isWS).reverse

/-- Python str.strip on a String. -/
def pyStrip (s : String) : String := ⟨stripChars s.data⟩

/-- ASCII lower-casing of one character (Python str.lower restricted to
ASCII, by code point: A-Z is 65-90, a-z is 97-122). -/
def pyLowerChar (c : Char) : Char :=
  if 65 ≤ c.toNat ∧ c.toNat ≤ 90 then Char.ofNat (c.toNat + 32) else c

/-- ASCII upper-casing of one character. -/
def pyUpperChar (c : Char) : Char :=
  if 97 ≤ c.toNat ∧ c.toNat ≤ 122 then Char.ofNat (c.toNat - 32) else c

/-- ASCII letter test. -/
def isAlphaChar (c : Char) : Bool :=
  (65 ≤ c.toNat ∧ c.toNat ≤ 90) || (97 ≤ c.toNat ∧ c.toNat ≤ 122)

/-- Python str.lower (ASCII fragment). -/
def pyLower (s : String) : String := ⟨s.data.map pyLowerChar⟩

/-- Character list worker for Python str.title: an alphabetic character is
upper-cased when the previous character was not alphabetic, lower-cased
otherwise. -/
def titleChars (prevAlpha : Bool) : List Char → List Char
  | [] => []
  | c :: cs =>
    let c2 := if isAlphaChar c then (if prevAlpha then pyLowerChar c else pyUpperChar c) else c
    c2 :: titleChars (isAlphaChar c2) cs

/-- Python str.title (ASCII fragment). -/
def pyTitle (s : String) : String := ⟨titleChars false s.data⟩

/-- The per-character step of titleChars, named for the proofs below. -/
def titleMap (prevAlpha : Bool) (c : Char) : Char :=
  if isAlphaChar c then (if prevAlpha then pyLowerChar c else pyUpperChar c) else c

/-- ASCII digit test (code points 48-57). -/
def isDigitChar (c : Char) : Bool := 48 ≤ c.toNat ∧ c.toNat ≤ 57

/-- Keep only digit characters (the regex replace r\x5b^\x5cd\x5d -> empty used
for phone cleaning). -/
def keepDigits (s : String) : String := ⟨s.data.filter isDigitChar⟩

/-- A pandas cell value.  null covers both Python None and float NaN (pandas
treats them interchangeably as missing); finite numbers are exact rationals;
inf and neginf are the float infinities produced by division by zero. -/
inductive Cell where
  | null : Cell
  | str (s : String) : Cell
  | num (q : ℚ) : Cell
  | inf : Cell
  | neginf : Cell
  deriving Repr, DecidableEq

/-- Column dtype: pandas object dtype versus a numeric (int/float) dtype. -/
inductive DType where
  | obj : DType
  | numeric : DType
  deriving Repr, DecidableEq

/-- A named, typed column header. -/
structure Col where
  name : String
  dtype : DType
  deriving Repr, DecidableEq

/-- A DataFrame: ordered column headers and rows of cells aligned with them. -/
structure DFrame where
  cols : List Col
  rows : List (List Cell)
  deriving Repr, DecidableEq

/-- Well-formedness: every row has exactly one cell per column. -/
def DFrame.WF (df : DFrame) : Prop :=
  ∀ r ∈ df.rows, r.length = df.cols.length

/-- Index of the first column with the given name. -/
def colIdxAux (name : String) : List Col → Option Nat
  | [] => none
  | c :: cs => if c.name = name then some 0 else (colIdxAux name cs).map (· + 1)

/-- Index of a column in a DataFrame. -/
def DFrame.colIdx (df : DFrame) (name : String) : Option Nat :=
  colIdxAux name df.cols

/-- Membership test for a column label (the Python test col in data.columns). -/
def DFrame.hasCol (df : DFrame) (name : String) : Bool :=
  df.cols.any (fun c => c.name = name)

/-- The cells of a named column, top to bottom (None when the label is absent). -/
def DFrame.getCol (df : DFrame) (name : String) : Option (List Cell) :=
  (df.colIdx name).map (fun i => df.rows.map (fun r => r.getD i Cell.null))

/-- pandas DataFrame.empty: true when either axis has length zero. -/
def DFrame.isEmpty (df : DFrame) : Bool :=
  df.rows.isEmpty || df.cols.isEmpty

/-- Number of null cells in a column (pandas isnull().sum()). -/
def nullCount (col : List Cell) : Nat :=
  (col.filter (fun c => c = Cell.null)).length

/-- Worker for drop_duplicates: keep each row the first time it appears. -/
def dedupAux (seen : List (List Cell)) : List (List Cell) → List (List Cell)
  | [] => []
  | r :: rs =>
    if seen.contains r then dedupAux seen rs
    else r :: dedupAux (r :: seen) rs

/-- pandas drop_duplicates: keep the first occurrence of every row, in
order. -/
def dedupKeepFirst (l : List (List Cell)) : List (List Cell) :=
  dedupAux [] l

/-- duplicated().sum() for a single column. -/
def dupCount (col : List Cell) : Nat :=
  col.length - (col.eraseDups).length

/-- Python str() of a cell, as used by astype(str).  Strings are unchanged;
Python None renders as the string None (the nulls reaching astype in the
cleaning pipeline are Python None objects introduced by replace); a float
NaN would render as nan, which this model does not distinguish.  Finite
numbers are rendered from the rational; integral values print without a
fractional part (the repr of an exact value; float repr noise is not
modelled, and none of the claims depends on it). -/
def pyStrOfCell : Cell → String
  | Cell.null => "None"
  | Cell.str s => s
  | Cell.num q => if q.den = 1 then toString q.num else toString q.num ++ "/" ++ toString q.den
  | Cell.inf => "inf"
  | Cell.neginf => "-inf"

/-- Round an exact value to the nearest integer, ties to even (Python round
and numpy round semantics). -/
def roundHalfEven (q : ℚ) : ℤ :=
  let f : ℤ := ⌊q⌋
  let r : ℚ := q - f
  if r < 1/2 then f else if 1/2 < r then f + 1 else if f % 2 = 0 then f else f + 1

/-- round(x, 2) on an exact value. -/
def pyRound2 (q : ℚ) : ℚ := (roundHalfEven (q * 100) : ℚ) / 100

/-- Series.round(2) on one cell: finite values are rounded, null and the
infinities pass through. -/
def round2Cell : Cell → Cell
  | Cell.num q => Cell.num (pyRound2 q)
  | c => c

/-- Series.fillna(0) on one cell: null becomes 0, everything else (including
the infinities) passes through. -/
def fillna0Cell : Cell → Cell
  | Cell.null => Cell.num 0
  | c => c

/-
  Element-wise pandas arithmetic.  Null (NaN) positions are masked and
  propagate as null; numeric values follow exact arithmetic with the IEEE
  special cases for the infinities; combining a string with a number raises
  a Python TypeError, modelled as an error value.  (The Python quirk that
  str*int repeats a string is not modelled: the numeric columns these
  operations are applied to hold SQL numeric data.)
-/

/-- Element-wise addition (also string concatenation on object columns). -/
def cellAdd : Cell → Cell → Except String Cell
  | Cell.null, _ => Except.ok Cell.null
  | _, Cell.null => Except.ok Cell.null
  | Cell.str a, Cell.str b => Except.ok (Cell.str (a ++ b))
  | Cell.num a, Cell.num b => Except.ok (Cell.num (a + b))
  | Cell.inf, Cell.neginf => Except.ok Cell.null
  | Cell.neginf, Cell.inf => Except.ok Cell.null
  | Cell.inf, Cell.num _ => Except.ok Cell.inf
  | Cell.num _, Cell.inf => Except.ok Cell.inf
  | Cell.neginf, Cell.num _ => Except.ok Cell.neginf
  | Cell.num _, Cell.neginf => Except.ok Cell.neginf
  | Cell.inf, Cell.inf => Except.ok Cell.inf
  | Cell.neginf, Cell.neginf => Except.ok Cell.neginf
  | _, _ => Except.error "TypeError: unsupported operand types for +"

/-- Element-wise subtraction. -/
def cellSub : Cell → Cell → Except String Cell
  | Cell.null, _ => Except.ok Cell.null
  | _, Cell.null => Except.ok Cell.null
  | Cell.num a, Cell.num b => Except.ok (Cell.num (a - b))
  | Cell.inf, Cell.inf => Except.ok Cell.null
  | Cell.neginf, Cell.neginf => Except.ok Cell.null
  | Cell.inf, _ => Except.ok Cell.inf
  | Cell.neginf, _ => Except.ok Cell.neginf
  | Cell.num _, Cell.inf => Except.ok Cell.neginf
  | Cell.num _, Cell.neginf => Except.ok Cell.inf
  | _, _ => Except.error "TypeError: unsupported operand types for -"

/-- Element-wise multiplication. -/
def cellMul : Cell → Cell → Except String Cell
  | Cell.null, _ => Except.ok Cell.null
  | _, Cell.null => Except.ok Cell.null
  | Cell.num a, Cell.num b => Except.ok (Cell.num (a * b))
  | Cell.inf, Cell.num b =>
      Except.ok (if 0 < b then Cell.inf else if b < 0 then Cell.neginf else Cell.null)
  | Cell.num a, Cell.inf =>
      Except.ok (if 0 < a then Cell.inf else if a < 0 then Cell.neginf else Cell.null)
  | Cell.neginf, Cell.num b =>
      Except.ok (if 0 < b then Cell.neginf else if b < 0 then Cell.inf else Cell.null)
  | Cell.num a, Cell.neginf =>
      Except.ok (if 0 < a then Cell.neginf else if a < 0 then Cell.inf else Cell.null)
  | Cell.inf, Cell.inf => Except.ok Cell.inf
  | Cell.neginf, Cell.neginf => Except.ok Cell.inf
  | Cell.inf, Cell.neginf => Except.ok Cell.neginf
  | Cell.neginf, Cell.inf => Except.ok Cell.neginf
  | _, _ => Except.error "TypeError: unsupported operand types for *"

/-- Element-wise division, with the IEEE division-by-zero cases: a nonzero
value over zero gives a signed infinity, zero over zero gives NaN (null). -/
def cellDiv : Cell → Cell → Except String Cell
  | Cell.null, _ => Except.ok Cell.null
  | _, Cell.null => Except.ok Cell.null
  | Cell.num a, Cell.num b =>
      Except.ok (if b = 0 then
        (if 0 < a then Cell.inf else if a < 0 then Cell.neginf else Cell.null)
      else Cell.num (a / b))
  | Cell.num _, Cell.inf => Except.ok (Cell.num 0)
  | Cell.num _, Cell.neginf => Except.ok (Cell.num 0)
  | Cell.inf, Cell.num b => Except.ok (if b < 0 then Cell.neginf else Cell.inf)
  | Cell.neginf, Cell.num b => Except.ok (if b < 0 then Cell.inf else Cell.neginf)
  | Cell.inf, Cell.inf => Except.ok Cell.null
  | Cell.inf, Cell.neginf => Except.ok Cell.null
  | Cell.neginf, Cell.inf => Except.ok Cell.null
  | Cell.neginf, Cell.neginf => Except.ok Cell.null
  | _, _ => Except.error "TypeError: unsupported operand types for /"

/-- abs() of one cell in a numeric-dtype column: NaN passes through, both
infinities map to inf, a string raises TypeError. -/
def cellAbsNum : Cell → Except String Cell
  | Cell.null => Except.ok Cell.null
  | Cell.num q => Except.ok (Cell.num |q|)
  | Cell.inf => Except.ok Cell.inf
  | Cell.neginf => Except.ok Cell.inf
  | Cell.str _ => Except.error "TypeError: bad operand type for abs"

/-- abs() of one cell in an object-dtype column: Python abs() on the stored
object, so None and strings raise TypeError. -/
def cellAbsObj : Cell → Except String Cell
  | Cell.num q => Except.ok (Cell.num |q|)
  | Cell.inf => Except.ok Cell.inf
  | Cell.neginf => Except.ok Cell.inf
  | _ => Except.error "TypeError: bad operand type for abs"

/-
  Element-wise comparisons against a numeric scalar or another cell.
  NaN compares false against everything (IEEE); comparing a string with a
  number raises TypeError.  String-string comparison is lexicographic as
  in Python.
-/

/-- Element-wise less-than between two cells. -/
def cellLt : Cell → Cell → Except String Bool
  | Cell.null, _ => Except.ok false
  | _, Cell.null => Except.ok false
  | Cell.num a, Cell.num b => Except.ok (decide (a < b))
  | Cell.str a, Cell.str b => Except.ok (decide (a < b))
  | Cell.inf, Cell.inf => Except.ok false
  | Cell.neginf, Cell.neginf => Except.ok false
  | Cell.inf, _ => Except.ok false
  | Cell.neginf, _ => Except.ok true
  | Cell.num _, Cell.inf => Except.ok true
  | Cell.num _, Cell.neginf => Except.ok false
  | _, _ => Except.error "TypeError: unorderable types"

/-- Element-wise less-or-equal between two cells. -/
def cellLe : Cell → Cell → Except String Bool
  | Cell.null, _ => Except.ok false
  | _, Cell.null => Except.ok false
  | Cell.num a, Cell.num b => Except.ok (decide (a ≤ b))
  | Cell.str a, Cell.str b => Except.ok (decide (a ≤ b))
  | Cell.inf, Cell.inf => Except.ok true
  | Cell.neginf, Cell.neginf => Except.ok true
  | Cell.inf, _ => Except.ok false
  | Cell.neginf, _ => Except.ok true
  | Cell.num _, Cell.inf => Except.ok true
  | Cell.num _, Cell.neginf => Except.ok false
  | _, _ => Except.error "TypeError: unorderable types"

/-- The cells of a named column, or the empty list when the label is absent
(all uses are guarded by hasCol, mirroring the Python in-columns guards). -/
def DFrame.colCellsD (df : DFrame) (name : String) : List Cell :=
  (df.getCol name).getD []

/-- The dtype of a named column. -/
def DFrame.dtypeOf (df : DFrame) (name : String) : Option DType :=
  (df.cols.find? (fun c => c.name = name)).map (fun c => c.dtype)

/-
  DataValidator (src/data_validator.py).
-/

/-- The per-table rule set (the validation_rules dictionary entries).  A key
absent from the Python dict is modelled by the empty default, which makes
the corresponding in-rules guard and loop a no-op exactly like the source.
foreign_key_columns is carried for completeness; no check in validate_data
reads it. -/
structure Rules where
  required_columns : List String := []
  unique_columns : List String := []
  email_columns : List String := []
  phone_columns : List String := []
  date_columns : List String := []
  numeric_columns : List String := []
  positive_columns : List String := []
  non_negative_columns : List String := []
  foreign_key_columns : List (String × String) := []
  deriving Repr, DecidableEq

/-- DataValidator.validation_rules, verbatim from the source dictionary. -/
def validation_rules : String → Option Rules
  | "customers" => some
      { required_columns := ["customer_id", "first_name", "last_name", "email"]
        unique_columns := ["customer_id", "email"]
        email_columns := ["email"]
        phone_columns := ["phone"]
        date_columns := ["registration_date", "last_login"] }
  | "products" => some
      { required_columns := ["product_id", "product_name", "price"]
        unique_columns := ["product_id"]
        numeric_columns := ["price", "cost", "weight"]
        positive_columns := ["price"]
        date_columns := ["created_date", "updated_date"] }
  | "orders" => some
      { required_columns := ["order_id", "customer_id", "order_date", "order_total"]
        unique_columns := ["order_id"]
        numeric_columns := ["order_total", "tax_amount", "shipping_cost"]
        positive_columns := ["order_total"]
        date_columns := ["order_date"]
        foreign_key_columns := [("customer_id", "customers")] }
  | "order_items" => some
      { required_columns := ["order_item_id", "order_id", "product_id", "quantity", "unit_price"]
        unique_columns := ["order_item_id"]
        numeric_columns := ["quantity", "unit_price", "total_price"]
        positive_columns := ["quantity", "unit_price"]
        foreign_key_columns := [("order_id", "orders"), ("product_id", "products")] }
  | "inventory" => some
      { required_columns := ["inventory_id", "product_id", "quantity_on_hand"]
        unique_columns := ["inventory_id"]
        numeric_columns := ["quantity_on_hand", "quantity_reserved", "reorder_level"]
        non_negative_columns := ["quantity_on_hand", "quantity_reserved"]
        date_columns := ["last_updated"]
        foreign_key_columns := [("product_id", "products")] }
  | _ => none

/-- The validation_results dictionary. -/
structure Report where
  is_valid : Bool
  issues : List String
  warnings : List String
  row_count : Nat
  column_count : Nat
  null_percentages : List (String × ℚ)
  duplicate_count : Nat
  deriving Repr, DecidableEq

/-- Append an issue and invalidate (the paired results mutation the source
performs at every issue site). -/
def addIssue (msg : String) (r : Report) : Report :=
  { r with issues := r.issues ++ [msg], is_valid := false }

/-- Append a warning (never touches is_valid). -/
def addWarning (msg : String) (r : Report) : Report :=
  { r with warnings := r.warnings ++ [msg] }

/-- Environment of configured values and external library behaviour the
validator and transformer depend on: the configured NULL_THRESHOLD, whether
pd.to_numeric parses a given string, whether pd.to_datetime parses a given
non-null cell, the cell-level action of pd.to_datetime and of
pd.to_datetime(...).dt.date, and the current wall-clock timestamp
datetime.now() used by the default transformation. -/
structure Env where
  null_threshold : ℚ
  num_parses : String → Bool
  date_parses : Cell → Bool
  to_datetime : Cell → Except String Cell
  to_date : Cell → Except String Cell
  now : Cell

/-- Whether pd.to_numeric accepts a cell (missing values and numbers always
convert; strings per the environment oracle). -/
def numParsesCell (env : Env) : Cell → Bool
  | Cell.str s => env.num_parses s
  | _ => true

/-- Allowed characters of the email regex local part. -/
def emailLocalChar (c : Char) : Bool :=
  isAlphaChar c || isDigitChar c || c = '.' || c = '_' || c = '%' || c = '+' || c = '-'

/-- Allowed characters of the email regex domain part. -/
def emailDomainChar (c : Char) : Bool :=
  isAlphaChar c || isDigitChar c || c = '.' || c = '-'

/-- The email regex of _validate_email_format: a nonempty local part, an at
sign, a nonempty domain, a dot, and an alphabetic TLD of length at least
two.  Since the TLD class contains no dot, the match must split the domain
at its last dot, which makes the anchored regex equivalent to this direct
check. -/
def emailMatch (s : String) : Bool :=
  match s.splitOn "@" with
  | [locPart, domain] =>
      locPart ≠ "" && locPart.data.all emailLocalChar &&
      (let segs := domain.splitOn "."
       2 ≤ segs.length &&
       (let tld := segs.getLastD ""
        2 ≤ tld.length && tld.data.all isAlphaChar) &&
       (let dom := String.intercalate "." segs.dropLast
        dom ≠ "" && dom.data.all emailDomainChar))
  | _ => false

/-- A validation step state: the report so far plus a pending exception, as
produced inside the single try block of validate_data.  Mutations performed
before an exception is raised are retained, exactly as with the in-place
dictionary updates of the source. -/
abbrev VStep := Report × Option String

/-- Sequence two steps: a pending exception skips the rest of the try block. -/
def vbind (st : VStep) (f : Report → VStep) : VStep :=
  match st with
  | (r, none) => f r
  | st => st

/-- Run a possibly-raising per-item step over a list, stopping at the first
exception while keeping the report mutations made so far. -/
def foldE (h : α → Report → VStep) : List α → Report → VStep
  | [], r => (r, none)
  | a :: as, r =>
    match h a r with
    | (r2, none) => foldE h as r2
    | st => st

/-- Count the pairs of two columns on which a raising elementwise comparison
returns true (a Series-vs-Series comparison; an exception aborts the whole
operation before any report mutation). -/
def countPairsE (f : Cell → Cell → Except String Bool) (xs ys : List Cell) :
    Except String Nat :=
  (List.zip xs ys).foldlM
    (fun n p => do
      let b ← f p.1 p.2
      pure (if b then n + 1 else n)) 0

/-- Count the cells on which a raising elementwise test returns true
(a Series-vs-scalar comparison). -/
def countCellsE (f : Cell → Except String Bool) (xs : List Cell) :
    Except String Nat :=
  xs.foldlM
    (fun n c => do
      let b ← f c
      pure (if b then n + 1 else n)) 0

/-- DataValidator._validate_required_columns. -/
def validateRequiredColumns (df : DFrame) (rules : Rules) (r : Report) : Report :=
  let missing := rules.required_columns.filter (fun c => !(df.hasCol c))
  if missing ≠ [] then
    addIssue ("Missing required columns: " ++ toString missing) r
  else r

/-- DataValidator._validate_null_values: per column, record the rounded null
percentage, warn above the configured threshold, and raise an issue for
nulls in a required column. -/
def validateNullValues (env : Env) (df : DFrame) (rules : Rules) (r : Report) : Report :=
  df.cols.foldl
    (fun r col =>
      let nc := nullCount (df.colCellsD col.name)
      let pct : ℚ := ((nc : ℚ) / (df.rows.length : ℚ)) * 100
      let r := { r with null_percentages := r.null_percentages ++ [(col.name, pyRound2 pct)] }
      let r :=
        if env.null_threshold * 100 < pct then
          addWarning ("Column \x27" ++ col.name ++ "\x27 has " ++ toString pct ++
            "% null values (threshold: " ++ toString (env.null_threshold * 100) ++ "%)") r
        else r
      if rules.required_columns.contains col.name ∧ 0 < nc then
        addIssue ("Required column \x27" ++ col.name ++ "\x27 contains " ++
          toString nc ++ " null values") r
      else r)
    r

/-- DataValidator._validate_unique_constraints. -/
def validateUniqueConstraints (df : DFrame) (rules : Rules) (r : Report) : Report :=
  rules.unique_columns.foldl
    (fun r c =>
      if df.hasCol c then
        let dc := dupCount (df.colCellsD c)
        if 0 < dc then
          addIssue ("Column \x27" ++ c ++ "\x27 has " ++ toString dc ++ " duplicate values") r
        else r
      else r)
    r

/-- Email-format branch of _validate_data_types / _validate_email_format.
dropna comes first, so an all-null column returns zero invalid before the
str accessor is touched; on a non-object column with data the str accessor
raises AttributeError; on an object column every non-null cell that is not
a string matching the pattern counts as invalid (str.match yields NaN for
non-strings and na=False turns it into a failed match). -/
def emailCheckStep (df : DFrame) (c : String) (r : Report) : VStep :=
  if df.hasCol c then
    let nonnull := (df.colCellsD c).filter (fun x => x ≠ Cell.null)
    if nonnull = [] then (r, none)
    else if df.dtypeOf c ≠ some DType.obj then
      (r, some "AttributeError: Can only use .str accessor with string values")
    else
      let invalid := nonnull.countP (fun x =>
        match x with
        | Cell.str s => !emailMatch s
        | _ => true)
      if 0 < invalid then
        (addWarning ("Column \x27" ++ c ++ "\x27 has " ++ toString invalid ++
          " invalid email formats") r, none)
      else (r, none)
  else (r, none)

/-- Phone-format branch of _validate_data_types / _validate_phone_format:
astype(str) first, so it never raises; a cleaned digit string shorter than
10 or longer than 15 digits is invalid. -/
def phoneCheckStep (df : DFrame) (c : String) (r : Report) : Report :=
  if df.hasCol c then
    let nonnull := (df.colCellsD c).filter (fun x => x ≠ Cell.null)
    let invalid := nonnull.countP (fun x =>
      let d := keepDigits (pyStrOfCell x)
      d.length < 10 || 15 < d.length)
    if nonnull ≠ [] ∧ 0 < invalid then
      addWarning ("Column \x27" ++ c ++ "\x27 has " ++ toString invalid ++
        " invalid phone formats") r
    else r
  else r

/-- Numeric branch of _validate_data_types: a non-numeric-dtype column whose
cells do not all convert with pd.to_numeric is an issue (the ValueError of
to_numeric is caught locally, never escaping the check). -/
def numericCheckStep (env : Env) (df : DFrame) (c : String) (r : Report) : Report :=
  if df.hasCol c then
    if df.dtypeOf c ≠ some DType.numeric then
      if !(df.colCellsD c).all (numParsesCell env) then
        addIssue ("Column \x27" ++ c ++ "\x27 contains non-numeric values") r
      else r
    else r
  else r

/-- Date branch of _validate_data_types / _validate_date_format: count the
non-null cells pd.to_datetime cannot parse; a bare except inside the helper
makes it total. -/
def dateCheckStep (env : Env) (df : DFrame) (c : String) (r : Report) : Report :=
  if df.hasCol c then
    let nonnull := (df.colCellsD c).filter (fun x => x ≠ Cell.null)
    let invalid := nonnull.countP (fun x => !env.date_parses x)
    if 0 < invalid then
      addWarning ("Column \x27" ++ c ++ "\x27 has " ++ toString invalid ++
        " invalid date formats") r
    else r
  else r

/-- DataValidator._validate_data_types: email, phone, numeric, then date
columns, in source order. -/
def validateDataTypes (env : Env) (df : DFrame) (rules : Rules) (r : Report) : VStep :=
  vbind (foldE (emailCheckStep df) rules.email_columns r) (fun r =>
    let r := rules.phone_columns.foldl (fun r c => phoneCheckStep df c r) r
    let r := rules.numeric_columns.foldl (fun r c => numericCheckStep env df c r) r
    let r := rules.date_columns.foldl (fun r c => dateCheckStep env df c r) r
    (r, none))

/-- The shape shared by every counted check of the business rules and the
range checks: compute a count through possibly-raising elementwise
operations, propagate an exception before any report mutation, and record
an entry when the count is positive. -/
def countBranch (x : Except String Nat) (g : Nat -> Report -> Report) (r : Report) : VStep :=
  match x with
  | Except.error e => (r, some e)
  | Except.ok n => if 0 < n then (g n r, none) else (r, none)

/-- The price-mismatch count of the order_items business rule: the rows
where total_price differs from quantity * unit_price by more than 0.01. -/
def priceMismatchCount (df : DFrame) : Except String Nat :=
  (List.zip (df.colCellsD "total_price")
    (List.zip (df.colCellsD "quantity") (df.colCellsD "unit_price"))).foldlM
    (fun n p => do
      let prod ← cellMul p.2.1 p.2.2
      let d ← cellSub p.1 prod
      let a ← cellAbsNum d
      let b ← cellLt (Cell.num (1/100)) a
      pure (if b then n + 1 else n)) (0 : Nat)

/-- DataValidator._validate_business_rules, dispatching on the table name. -/
def validateBusinessRules (df : DFrame) (t : String) (r : Report) : VStep :=
  if t = "products" then
    if df.hasCol "price" ∧ df.hasCol "cost" then
      countBranch (countPairsE cellLt (df.colCellsD "price") (df.colCellsD "cost"))
        (fun n r => addWarning (toString n ++ " products have price less than cost") r) r
    else (r, none)
  else if t = "orders" then
    if df.hasCol "order_total" then
      countBranch (countCellsE (fun c => cellLe c (Cell.num 0)) (df.colCellsD "order_total"))
        (fun n r => addIssue (toString n ++ " orders have non-positive total amounts") r) r
    else (r, none)
  else if t = "order_items" then
    vbind
      (if df.hasCol "quantity" then
        countBranch (countCellsE (fun c => cellLe c (Cell.num 0)) (df.colCellsD "quantity"))
          (fun n r => addIssue (toString n ++ " order items have non-positive quantities") r) r
      else (r, none))
      (fun r =>
        if df.hasCol "quantity" ∧ df.hasCol "unit_price" ∧ df.hasCol "total_price" then
          countBranch (priceMismatchCount df)
            (fun n r => addWarning (toString n ++ " order items have price calculation mismatches") r) r
        else (r, none))
  else (r, none)

/-- DataValidator._check_duplicates. -/
def checkDuplicates (df : DFrame) (r : Report) : Report :=
  let dc := df.rows.length - (dedupKeepFirst df.rows).length
  let r := { r with duplicate_count := dc }
  if 0 < dc then
    addWarning ("Found " ++ toString dc ++ " duplicate rows") r
  else r

/-- DataValidator._validate_ranges: strictly positive columns, then
non-negative columns. -/
def validateRanges (df : DFrame) (rules : Rules) (r : Report) : VStep :=
  vbind
    (foldE
      (fun c r =>
        if df.hasCol c then
          countBranch (countCellsE (fun x => cellLe x (Cell.num 0)) (df.colCellsD c))
            (fun n r => addIssue ("Column \x27" ++ c ++ "\x27 has " ++ toString n ++
              " non-positive values") r) r
        else (r, none))
      rules.positive_columns r)
    (foldE
      (fun c r =>
        if df.hasCol c then
          countBranch (countCellsE (fun x => cellLt x (Cell.num 0)) (df.colCellsD c))
            (fun n r => addIssue ("Column \x27" ++ c ++ "\x27 has " ++ toString n ++
              " negative values") r) r
        else (r, none))
      rules.non_negative_columns)

/-- The body of the try block of validate_data: the seven checks in source
order, an exception skipping the remainder. -/
def runAllChecks (env : Env) (df : DFrame) (t : String) (rules : Rules) (r0 : Report) : VStep :=
  vbind (vbind (vbind (vbind
    ((validateRequiredColumns df rules r0, none) : VStep)
    (fun r => (validateNullValues env df rules r, none)))
    (fun r => (validateUniqueConstraints df rules r, none)))
    (fun r => vbind (validateDataTypes env df rules r) (fun r =>
      vbind (validateBusinessRules df t r) (fun r =>
        (checkDuplicates df r, none)))))
    (validateRanges df rules)

/-- The empty validation_results dictionary built at the top of
validate_data. -/
def initReport (data : DFrame) : Report :=
  { is_valid := true
    issues := []
    warnings := []
    row_count := data.rows.length
    column_count := data.cols.length
    null_percentages := []
    duplicate_count := 0 }

/-- DataValidator.validate_data.  Total at its interface: a table without a
rule set returns the permissive initial report; an empty dataset short
circuits; any exception inside the try block is converted into a trailing
Validation error issue on the partially built report. -/
def validate_data (env : Env) (data : DFrame) (table_name : String) : Report :=
  let init := initReport data
  match validation_rules table_name with
  | none => init
  | some rules =>
    if data.isEmpty then addIssue "Dataset is empty" init
    else
      match runAllChecks env data table_name rules init with
      | (r, none) => r
      | (r, some e) => addIssue ("Validation error: " ++ e) r

/-
  DataValidator.clean_data (src/data_validator.py lines 313-392).
-/

/-- The generic per-cell string cleaning of clean_data applied to every
object-dtype column: astype(str), str.strip(), then replace of the empty
string by None (pandas 1.4+ honours an explicitly passed None value). -/
def objectCleanCell (c : Cell) : Cell :=
  let s := pyStrip (pyStrOfCell c)
  if s = "" then Cell.null else Cell.str s

/-- Apply the generic string cleaning to all object-dtype columns. -/
def genericStringClean (df : DFrame) : DFrame :=
  { df with rows := df.rows.map (fun r =>
      List.zipWith
        (fun (col : Col) c => if col.dtype = DType.obj then objectCleanCell c else c)
        df.cols r) }

/-- A pandas .str accessor method applied to one cell of an object column:
strings are mapped, anything else (None, NaN, stray non-strings) yields
NaN. -/
def strAcc (f : String → String) : Cell → Cell
  | Cell.str s => Cell.str (f s)
  | _ => Cell.null

/-- Reassign a named column through a per-cell function (identity when the
label is absent; every use is guarded by an in-columns test in the
source). -/
def mapColCells (name : String) (f : Cell → Cell) (df : DFrame) : DFrame :=
  match df.colIdx name with
  | none => df
  | some i =>
    { df with rows := df.rows.map (fun r => r.set i (f (r.getD i Cell.null))) }

/-- A guarded .str column operation as in _clean_customers /_clean_products:
skipped when the column is absent, raising AttributeError when the column
does not have object dtype. -/
def strCol (name : String) (f : String → String) (df : DFrame) : Except String DFrame :=
  if df.hasCol name then
    if df.dtypeOf name = some DType.obj then
      Except.ok (mapColCells name (strAcc f) df)
    else
      Except.error "AttributeError: Can only use .str accessor with string values"
  else Except.ok df

/-- Update one row position through a raising per-cell function. -/
def updateRowE (i : Nat) (f : Cell → Except String Cell) (r : List Cell) :
    Except String (List Cell) := do
  let v ← f (r.getD i Cell.null)
  pure (r.set i v)

/-- Reassign a named column through a raising per-cell function. -/
def mapColCellsE (name : String) (f : Cell → Except String Cell) (df : DFrame) :
    Except String DFrame := do
  match df.colIdx name with
  | none => Except.ok df
  | some i =>
    let rows ← df.rows.mapM (updateRowE i f)
    Except.ok { df with rows := rows }

/-- The guarded price-abs step of _clean_products: Series.abs() keeps NaN on
a numeric column but Python abs() raises on the strings and Nones an object
column holds after the generic cleaning. -/
def absCol (name : String) (df : DFrame) : Except String DFrame :=
  if df.hasCol name then
    match df.dtypeOf name with
    | some DType.obj => mapColCellsE name cellAbsObj df
    | _ => mapColCellsE name cellAbsNum df
  else Except.ok df

/-- DataValidator._clean_customers: lower-case email, keep only digits of
phone, title-case first and last name. -/
def cleanCustomers (df : DFrame) : Except String DFrame := do
  let df1 ← strCol "email" pyLower df
  let df2 ← strCol "phone" keepDigits df1
  let df3 ← strCol "first_name" pyTitle df2
  strCol "last_name" pyTitle df3

/-- DataValidator._clean_products: title-case product_name, force price to
its absolute value. -/
def cleanProducts (df : DFrame) : Except String DFrame := do
  let df1 ← strCol "product_name" pyTitle df
  absCol "price" df1

/-- DataValidator.clean_data: drop duplicate rows, clean every object
column (strip and coerce empty to None), then the per-table cleaning.  An
exception inside the try block is logged and re-raised, so the function
returns Except. -/
def clean_data (data : DFrame) (table_name : String) : Except String DFrame :=
  let cleaned := { data with rows := dedupKeepFirst data.rows }
  let cleaned := genericStringClean cleaned
  if table_name = "customers" then cleanCustomers cleaned
  else if table_name = "products" then cleanProducts cleaned
  else Except.ok cleaned

/-
  ETLPipeline transforms (src/etl_pipeline.py lines 247-344).
-/

/-- Bracket access data\x5bcol\x5d: KeyError when the label is absent. -/
def getColE (df : DFrame) (name : String) : Except String (List Cell) :=
  match df.getCol name with
  | some l => Except.ok l
  | none => Except.error ("KeyError: " ++ name)

/-- Column assignment data\x5bcol\x5d = series: overwrite an existing column
in place (its dtype becoming that of the assigned series) or append a new
column on the right. -/
def setCol (df : DFrame) (name : String) (dt : DType) (vals : List Cell) : DFrame :=
  match df.colIdx name with
  | some i =>
    { cols := df.cols.set i { name := name, dtype := dt }
      rows := List.zipWith (fun r v => r.set i v) df.rows vals }
  | none =>
    { cols := df.cols ++ [{ name := name, dtype := dt }]
      rows := List.zipWith (fun r v => r ++ [v]) df.rows vals }

/-- Elementwise combination of two series. -/
def zipCellsE (f : Cell → Cell → Except String Cell) (xs ys : List Cell) :
    Except String (List Cell) :=
  (List.zip xs ys).mapM (fun p => f p.1 p.2)

/-- An unguarded .str column operation as used inside the transforms:
KeyError when the column is absent, AttributeError on a non-object dtype. -/
def strColReq (name : String) (f : String → String) (df : DFrame) : Except String DFrame :=
  if df.hasCol name then
    if df.dtypeOf name = some DType.obj then
      Except.ok (mapColCells name (strAcc f) df)
    else
      Except.error "AttributeError: Can only use .str accessor with string values"
  else Except.error ("KeyError: " ++ name)

/-- ETLPipeline._transform_customers. -/
def transformCustomers (env : Env) (data : DFrame) : Except String DFrame := do
  let fn ← getColE data "first_name"
  let ln ← getColE data "last_name"
  let fnSp ← fn.mapM (fun c => cellAdd c (Cell.str " "))
  let full ← zipCellsE cellAdd fnSp ln
  let df1 := setCol data "full_name" DType.obj full
  let df2 ← strColReq "phone" keepDigits df1
  let df3 ← strColReq "email" pyLower df2
  let rd ← getColE df3 "registration_date"
  let rd2 ← rd.mapM env.to_date
  Except.ok (setCol df3 "registration_date" DType.obj rd2)

/-- ETLPipeline._transform_products: the profit margin is
round((price - cost) / price * 100, 2); division by zero follows the float
rules (signed infinity, or NaN when the numerator is zero too). -/
def transformProducts (_env : Env) (data : DFrame) : Except String DFrame := do
  let price ← getColE data "price"
  let cost ← getColE data "cost"
  let diff ← zipCellsE cellSub price cost
  let ratio ← zipCellsE cellDiv diff price
  let margin ← ratio.mapM (fun c => cellMul c (Cell.num 100))
  let df1 := setCol data "profit_margin" DType.numeric (margin.map round2Cell)
  strColReq "product_name" pyTitle df1

/-- ETLPipeline._transform_orders. -/
def transformOrders (env : Env) (data : DFrame) : Except String DFrame := do
  let od ← getColE data "order_date"
  let od2 ← od.mapM env.to_datetime
  let df1 := setCol data "order_date" DType.obj od2
  let ot ← getColE df1 "order_total"
  let tax ← getColE df1 "tax_amount"
  let ship ← getColE df1 "shipping_cost"
  let d1 ← zipCellsE cellSub ot tax
  let net ← zipCellsE cellSub d1 ship
  Except.ok (setCol df1 "net_amount" DType.numeric net)

/-- ETLPipeline._transform_order_items: line_total = quantity * unit_price,
discount_percentage = round(fillna(discount_applied / line_total * 100, 0), 2). -/
def transformOrderItems (_env : Env) (data : DFrame) : Except String DFrame := do
  let q ← getColE data "quantity"
  let up ← getColE data "unit_price"
  let lt ← zipCellsE cellMul q up
  let df1 := setCol data "line_total" DType.numeric lt
  let da ← getColE df1 "discount_applied"
  let lt2 ← getColE df1 "line_total"
  let ratio ← zipCellsE cellDiv da lt2
  let pct ← ratio.mapM (fun c => cellMul c (Cell.num 100))
  Except.ok (setCol df1 "discount_percentage" DType.numeric
    ((pct.map fillna0Cell).map round2Cell))

/-- Row access row\x5bname\x5d inside an apply(axis=1) callback. -/
def rowGet (cols : List Col) (row : List Cell) (name : String) : Except String Cell :=
  match colIdxAux name cols with
  | some i => Except.ok (row.getD i Cell.null)
  | none => Except.error ("KeyError: " ++ name)

/-- The get_stock_status callback of _transform_inventory.  NaN compares
false against numbers, landing such rows on In Stock, as with float NaN in
Python. -/
def getStockStatus (cols : List Col) (row : List Cell) : Except String Cell := do
  let av ← rowGet cols row "available_quantity"
  let b1 ← cellLe av (Cell.num 0)
  if b1 then pure (Cell.str "Out of Stock")
  else do
    let rl ← rowGet cols row "reorder_level"
    let b2 ← cellLe av rl
    if b2 then pure (Cell.str "Low Stock") else pure (Cell.str "In Stock")

/-- ETLPipeline._transform_inventory. -/
def transformInventory (_env : Env) (data : DFrame) : Except String DFrame := do
  let qh ← getColE data "quantity_on_hand"
  let qr ← getColE data "quantity_reserved"
  let av ← zipCellsE cellSub qh qr
  let df1 := setCol data "available_quantity" DType.numeric av
  let status ← df1.rows.mapM (getStockStatus df1.cols)
  Except.ok (setCol df1 "stock_status" DType.obj status)

/-- astype(str).str.strip() on one cell (the default transformation never
replaces the result by None). -/
def stripCellAstype (c : Cell) : Cell := Cell.str (pyStrip (pyStrOfCell c))

/-- ETLPipeline._apply_default_transformations: stamp the load timestamp,
then strip every object column except the timestamp column itself. -/
def applyDefaultTransformations (env : Env) (data : DFrame) : DFrame :=
  let t1 := setCol data "load_timestamp" DType.numeric (data.rows.map (fun _ => env.now))
  { t1 with rows := t1.rows.map (fun r =>
      List.zipWith
        (fun (col : Col) c =>
          if col.dtype = DType.obj ∧ col.name ≠ "load_timestamp" then stripCellAstype c else c)
        t1.cols r) }

/-- The per-table dispatch chain of transform_data (without the validation
step). -/
def dispatchTransform (env : Env) (data : DFrame) (t : String) : Except String DFrame :=
  if t = "customers" then transformCustomers env data
  else if t = "products" then transformProducts env data
  else if t = "orders" then transformOrders env data
  else if t = "order_items" then transformOrderItems env data
  else if t = "inventory" then transformInventory env data
  else Except.ok (applyDefaultTransformations env data)

/-- The ETLConfig flags read by the pipeline. -/
structure ETLCfg where
  ENABLE_DATA_VALIDATION : Bool
  ENABLE_INCREMENTAL_LOAD : Bool
  deriving Repr, DecidableEq

/-- ETLPipeline.transform_data: when validation is enabled the validation
report is computed and its outcome logged, after which the per-table
transformation runs on the untouched input either way. -/
def transform_data (env : Env) (cfg : ETLCfg) (data : DFrame) (t : String) :
    Except String DFrame :=
  let _validationReport : Option Report :=
    if cfg.ENABLE_DATA_VALIDATION then some (validate_data env data t) else none
  dispatchTransform env data t

/-
  ETLPipeline.load_data and the orchestration (src/etl_pipeline.py).
-/

/-- A resolved target table/schema pair. -/
structure TargetInfo where
  table : String
  schema : String
  deriving Repr, DecidableEq

/-- ETLPipeline._get_target_table_info. -/
def get_target_table_info (source_table : String) : TargetInfo :=
  if source_table = "customers" then ⟨"dim_customers", "dw_analytics"⟩
  else if source_table = "products" then ⟨"dim_products", "dw_analytics"⟩
  else if source_table = "orders" then ⟨"fact_sales", "dw_analytics"⟩
  else if source_table = "order_items" then ⟨"fact_sales", "dw_analytics"⟩
  else if source_table = "inventory" then ⟨"fact_inventory", "dw_analytics"⟩
  else ⟨source_table, "dw_analytics"⟩

/-- The externally observable database operations load_data performs, in
order. -/
inductive LoadEffect where
  | bulkInsert (table : String) (schema : String) (if_exists : String) (rowCount : Nat)
  | mergeToTarget (staging : String) (target : TargetInfo)
  deriving Repr, DecidableEq

/-- ETLPipeline.load_data: bulk-insert into the staging table stg_<entity>
in replace mode, merge staging into the resolved target, return the row
count of the dataset written in phase one. -/
def load_data (data : DFrame) (table_name : String) : List LoadEffect × Nat :=
  let target_info := get_target_table_info table_name
  let staging_table := "stg_" ++ table_name
  ([LoadEffect.bulkInsert staging_table "staging" "replace" data.rows.length,
    LoadEffect.mergeToTarget staging_table target_info],
   data.rows.length)

/-- The pipeline_stats dictionary. -/
structure PipelineStats where
  extracted_records : Nat
  transformed_records : Nat
  loaded_records : Nat
  failed_records : Nat
  processing_time : ℚ
  deriving Repr, DecidableEq

/-- The statistics as initialised once in ETLPipeline.__init__. -/
def initPipelineStats : PipelineStats :=
  { extracted_records := 0
    transformed_records := 0
    loaded_records := 0
    failed_records := 0
    processing_time := 0 }

/-- ETLPipeline._process_table.  Extraction is delegated to the external
store, modelled as a map from table name to the extracted frame; an empty
extraction returns early; a transformation failure increments the failed
counter and re-raises; the load path (whose own database failures belong to
the external collaborator, not to this model) adds the returned row count. -/
def process_table (env : Env) (cfg : ETLCfg) (source : String → DFrame)
    (stats : PipelineStats) (t : String) : PipelineStats × Option String :=
  let extracted := source t
  if extracted.isEmpty then (stats, none)
  else
    let stats := { stats with extracted_records := stats.extracted_records + extracted.rows.length }
    match transform_data env cfg extracted t with
    | Except.error e => ({ stats with failed_records := stats.failed_records + 1 }, some e)
    | Except.ok td =>
      let stats := { stats with transformed_records := stats.transformed_records + td.rows.length }
      let loaded_count := (load_data td t).2
      ({ stats with loaded_records := stats.loaded_records + loaded_count }, none)

/-- The per-table loop of run_full_pipeline: a raising table aborts the
remaining tables. -/
def runTables (env : Env) (cfg : ETLCfg) (source : String → DFrame) :
    List String → PipelineStats → PipelineStats × Option String
  | [], stats => (stats, none)
  | t :: ts, stats =>
    match process_table env cfg source stats t with
    | (stats2, none) => runTables env cfg source ts stats2
    | st => st

/-- ETLPipeline.run_full_pipeline.  The connection test failure aborts
before any table; tables defaults to the fixed catalog order; on success
the elapsed wall-clock time is recorded.  The statistics are whatever the
pipeline object already holds: the entry point performs no reset. -/
def run_full_pipeline (env : Env) (cfg : ETLCfg) (connOk : Bool)
    (source : String → DFrame) (elapsed : ℚ) (stats : PipelineStats)
    (tables : Option (List String)) : PipelineStats × Option String :=
  if !connOk then (stats, some "Database connection test failed")
  else
    let ts := tables.getD ["customers", "products", "orders", "order_items", "inventory"]
    match runTables env cfg source ts stats with
    | (stats2, none) => ({ stats2 with processing_time := elapsed }, none)
    | st => st

/-
  Object-slot model for the input-mutation claim.  Python passes the input
  DataFrame by reference; whether a function mutates it depends on which
  object each statement's receiver is.  The statements of clean_data are
  translated one for one, with the receiver read off the source text: the
  only object ever written is the fresh copy created by data.copy(), bound
  to cleaned_data.  validate_data contains no DataFrame write at all (its
  mutations target the results dictionary), so its statement list is
  read-only.
-/

/-- One statement of a function body, classified by the DataFrame object it
writes: none (readFrames), the fresh working copy (updateWork), or the
creation of that copy itself (copyWork). -/
inductive PdStmt where
  | readFrames : PdStmt
  | copyWork : PdStmt
  | updateWork (f : DFrame → Except String DFrame) : PdStmt

/-- Execute one statement on the state (input object, working object). -/
def execStmt (s : PdStmt) (st : DFrame × Option DFrame) :
    Except String (DFrame × Option DFrame) :=
  match s, st with
  | PdStmt.readFrames, st => Except.ok st
  | PdStmt.copyWork, (d, _) => Except.ok (d, some d)
  | PdStmt.updateWork f, (d, w) =>
    match w with
    | none => Except.ok (d, none)
    | some wdf => do
      let w2 ← f wdf
      Except.ok (d, some w2)

/-- Execute a statement list; an exception aborts the remainder. -/
def execProg : List PdStmt → DFrame × Option DFrame →
    Except String (DFrame × Option DFrame)
  | [], st => Except.ok st
  | s :: ss, st => do execProg ss (← execStmt s st)

/-- The body of clean_data as receiver-annotated statements, in source
order: cleaned_data = data.copy(); drop duplicates; the string-column
cleaning loop; the per-table cleaning call. -/
def clean_data_stmts (table_name : String) : List PdStmt :=
  [PdStmt.copyWork,
   PdStmt.updateWork (fun df => Except.ok { df with rows := dedupKeepFirst df.rows }),
   PdStmt.updateWork (fun df => Except.ok (genericStringClean df)),
   PdStmt.updateWork (fun df =>
     if table_name = "customers" then cleanCustomers df
     else if table_name = "products" then cleanProducts df
     else Except.ok df)]

/-- The body of validate_data, every statement of which only reads the
input frame (one entry per check plus the empty test; the mutated
validation_results value is a dictionary, not a DataFrame). -/
def validate_data_stmts : List PdStmt :=
  List.replicate 8 PdStmt.readFrames

/-
  Statement helpers and concrete fixtures used by the claim theorems and
  their witnesses.
-/

/-- The rational carried by a finite numeric cell (zero elsewhere); used
only to phrase theorem conclusions. -/
def toQ : Cell → ℚ
  | Cell.num q => q
  | _ => 0

/-- The report invariant under study: valid exactly when no issue has been
recorded. -/
def ReportInv (r : Report) : Prop :=
  r.is_valid = true ↔ r.issues = []

/-- Whether a cell holds a Python string. -/
def Cell.isStr : Cell → Bool
  | Cell.str _ => true
  | _ => false

/-- The value discount_percentage actually takes on a row whose line_total
is zero, as a function of the discount_applied cell: zero for a null or
zero discount, a signed infinity otherwise.  Used only to phrase the
amended claim. -/
def discSpec : Cell → Cell
  | Cell.null => Cell.num 0
  | Cell.num d => if d = 0 then Cell.num 0 else if 0 < d then Cell.inf else Cell.neginf
  | c => c

/-- The stock label of get_stock_status as a function of the available
quantity and reorder level.  Used only to phrase conclusions. -/
def stockStatusSpec (av rl : ℚ) : String :=
  if av ≤ 0 then "Out of Stock" else if av ≤ rl then "Low Stock" else "In Stock"

/-- An object-column cell in cleaned form: null, or a whitespace-stripped
string. -/
def cleanObjCell (c : Cell) : Prop :=
  c = Cell.null ∨ ∃ s, c = Cell.str s ∧ stripChars s.data = s.data

/-- Every object-column cell of the frame is in cleaned form. -/
def CleanFrame (df : DFrame) : Prop :=
  ∀ r ∈ df.rows, ∀ p ∈ List.zip df.cols r, p.1.dtype = DType.obj → cleanObjCell p.2

/-- No object-column cell of the frame is null or the empty string. -/
def NoNullNoEmptyObj (df : DFrame) : Prop :=
  ∀ r ∈ df.rows, ∀ p ∈ List.zip df.cols r, p.1.dtype = DType.obj →
    p.2 ≠ Cell.null ∧ p.2 ≠ Cell.str ""

/-- Pointwise order on the four record counters. -/
def statsLe (a b : PipelineStats) : Prop :=
  a.extracted_records ≤ b.extracted_records ∧
  a.transformed_records ≤ b.transformed_records ∧
  a.loaded_records ≤ b.loaded_records ∧
  a.failed_records ≤ b.failed_records

/-- A permissive concrete environment used for witnesses: the default
NULL_THRESHOLD of 0.1, oracles that accept everything, to_datetime and
dt.date as identity, and a fixed wall clock. -/
def envAny : Env :=
  { null_threshold := 1/10
    num_parses := fun _ => true
    date_parses := fun _ => true
    to_datetime := fun c => Except.ok c
    to_date := fun c => Except.ok c
    now := Cell.str "2024-01-01 00:00:00" }

/-- The default configuration: validation and incremental load enabled. -/
def cfgDefault : ETLCfg :=
  { ENABLE_DATA_VALIDATION := true, ENABLE_INCREMENTAL_LOAD := true }

/-- An orders extraction missing its required id columns (hence invalid)
whose transformation nevertheless succeeds. -/
def ordersBad : DFrame :=
  { cols := [⟨"order_date", DType.obj⟩, ⟨"order_total", DType.numeric⟩,
             ⟨"tax_amount", DType.numeric⟩, ⟨"shipping_cost", DType.numeric⟩]
    rows := [[Cell.str "2024-01-01", Cell.num 100, Cell.num 10, Cell.num 5]] }

/-- A products frame whose object-dtype price column makes the
price-versus-cost business rule raise a TypeError inside validate_data. -/
def productsRaise : DFrame :=
  { cols := [⟨"product_id", DType.numeric⟩, ⟨"product_name", DType.obj⟩,
             ⟨"price", DType.obj⟩, ⟨"cost", DType.numeric⟩]
    rows := [[Cell.num 1, Cell.str "x", Cell.str "x", Cell.num 5]] }

/-- Two rows that differ only by trailing whitespace: distinct before
cleaning, identical afterwards. -/
def ordersDirty : DFrame :=
  { cols := [⟨"status", DType.obj⟩]
    rows := [[Cell.str "a"], [Cell.str "a "]] }

/-- A single empty-string cell in an object column. -/
def ordersEmptyStr : DFrame :=
  { cols := [⟨"status", DType.obj⟩]
    rows := [[Cell.str ""]] }

/-- A products row with price 0 and cost 5. -/
def productsZeroPrice : DFrame :=
  { cols := [⟨"product_name", DType.obj⟩, ⟨"price", DType.numeric⟩, ⟨"cost", DType.numeric⟩]
    rows := [[Cell.str "x", Cell.num 0, Cell.num 5]] }

/-- An order_items row with quantity 0 (so line_total 0) and a nonzero
discount. -/
def orderItemsZeroLine : DFrame :=
  { cols := [⟨"quantity", DType.numeric⟩, ⟨"unit_price", DType.numeric⟩,
             ⟨"discount_applied", DType.numeric⟩]
    rows := [[Cell.num 0, Cell.num 5, Cell.num 5]] }

/-- The inventory scenario row with reorder level 30. -/
def inventory30 : DFrame :=
  { cols := [⟨"quantity_on_hand", DType.numeric⟩, ⟨"quantity_reserved", DType.numeric⟩,
             ⟨"reorder_level", DType.numeric⟩]
    rows := [[Cell.num 50, Cell.num 10, Cell.num 30]] }

/-- A customers frame with one padded mixed-case email, for the cleaning
idempotence witness. -/
def customersSpaced : DFrame :=
  { cols := [⟨"email", DType.obj⟩]
    rows := [[Cell.str "  A@B.C  "]] }

/-- The cleaned form of customersSpaced. -/
def customersCleanE : DFrame :=
  { cols := [⟨"email", DType.obj⟩]
    rows := [[Cell.str "a@b.c"]] }

/-- The inventory scenario row with reorder level 45. -/
def inventory45 : DFrame :=
  { cols := [⟨"quantity_on_hand", DType.numeric⟩, ⟨"quantity_reserved", DType.numeric⟩,
             ⟨"reorder_level", DType.numeric⟩]
    rows := [[Cell.num 50, Cell.num 10, Cell.num 45]] }

/-- Pipeline statistics carrying a nonzero extracted counter, as left over
from a previous run of the same pipeline object. -/
def statsSeven : PipelineStats :=
  { extracted_records := 7, transformed_records := 0, loaded_records := 0,
    failed_records := 0, processing_time := 0 }

/-- The rule set of the products table, as resolved by validation_rules. -/
def productsRules : Rules :=
  { required_columns := ["product_id", "product_name", "price"]
    unique_columns := ["product_id"]
    numeric_columns := ["price", "cost", "weight"]
    positive_columns := ["price"]
    date_columns := ["created_date", "updated_date"] }

/-- The transformed ordersBad frame: order_date passed through to_datetime
(identity under envAny) and the derived net_amount 100 - 10 - 5 = 85. -/
def ordersBadT : DFrame :=
  { cols := [⟨"order_date", DType.obj⟩, ⟨"order_total", DType.numeric⟩,
             ⟨"tax_amount", DType.numeric⟩, ⟨"shipping_cost", DType.numeric⟩,
             ⟨"net_amount", DType.numeric⟩]
    rows := [[Cell.str "2024-01-01", Cell.num 100, Cell.num 10, Cell.num 5, Cell.num 85]] }

/-
  Lemmas: the validity/issues invariant of the validator.
-/

theorem inv_addIssue (m : String) (r : Report) : ReportInv (addIssue m r) := by
  simp [ReportInv, addIssue]

theorem inv_addWarning (m : String) (r : Report) (h : ReportInv r) :
    ReportInv (addWarning m r) := by
  simpa [ReportInv, addWarning] using h

theorem foldl_inv {α : Type} (P : Report → Prop) (step : Report → α → Report)
    (hstep : ∀ r a, P r → P (step r a)) :
    ∀ (l : List α) (r : Report), P r → P (List.foldl step r l)
  | [], _, h => h
  | a :: l, r, h => foldl_inv P step hstep l (step r a) (hstep r a h)

theorem foldE_inv {α : Type} (P : Report → Prop) (h : α → Report → VStep)
    (hstep : ∀ a r, P r → P (h a r).1) :
    ∀ (l : List α) (r : Report), P r → P (foldE h l r).1 := by
  intro l
  induction l with
  | nil => intro r hr; exact hr
  | cons a as ih =>
    intro r hr
    unfold foldE
    rcases hh : h a r with ⟨r2, e⟩
    have h2 : P r2 := by
      have := hstep a r hr
      rw [hh] at this
      exact this
    cases e with
    | none => exact ih r2 h2
    | some msg => exact h2

theorem vbind_inv (P : Report → Prop) (st : VStep) (f : Report → VStep)
    (h1 : P st.1) (h2 : ∀ r, P r → P (f r).1) : P (vbind st f).1 := by
  rcases st with ⟨r, e⟩
  cases e with
  | none => exact h2 r h1
  | some msg => exact h1

theorem requiredColumns_inv (df : DFrame) (rules : Rules) (r : Report)
    (h : ReportInv r) : ReportInv (validateRequiredColumns df rules r) := by
  unfold validateRequiredColumns
  dsimp only
  split_ifs <;> first | exact inv_addIssue _ _ | exact h

theorem nullValues_inv (env : Env) (df : DFrame) (rules : Rules) (r : Report)
    (h : ReportInv r) : ReportInv (validateNullValues env df rules r) := by
  unfold validateNullValues
  apply foldl_inv _ _ _ _ _ h
  intro r col hr
  dsimp only
  have h1 : ReportInv { r with null_percentages :=
      r.null_percentages ++ [(col.name, pyRound2 ((nullCount (df.colCellsD col.name) : ℚ) / (df.rows.length : ℚ) * 100))] } := by
    simpa [ReportInv] using hr
  split_ifs <;> first
    | exact inv_addIssue _ _
    | exact inv_addWarning _ _ h1
    | exact h1

theorem uniqueConstraints_inv (df : DFrame) (rules : Rules) (r : Report)
    (h : ReportInv r) : ReportInv (validateUniqueConstraints df rules r) := by
  unfold validateUniqueConstraints
  apply foldl_inv _ _ _ _ _ h
  intro r c hr
  dsimp only
  split_ifs <;> first | exact inv_addIssue _ _ | exact hr

theorem emailCheckStep_inv (df : DFrame) (c : String) (r : Report)
    (h : ReportInv r) : ReportInv (emailCheckStep df c r).1 := by
  simp only [emailCheckStep]
  split_ifs <;> first | exact h | exact inv_addWarning _ _ h

theorem dataTypes_inv (env : Env) (df : DFrame) (rules : Rules) (r : Report)
    (h : ReportInv r) : ReportInv (validateDataTypes env df rules r).1 := by
  unfold validateDataTypes
  apply vbind_inv
  · exact foldE_inv _ _ (fun a r hr => emailCheckStep_inv df a r hr) _ _ h
  · intro r hr
    apply foldl_inv _ (fun r c => dateCheckStep env df c r)
    · intro r c hr
      unfold dateCheckStep
      dsimp only
      split_ifs <;> first | exact hr | exact inv_addWarning _ _ hr
    · apply foldl_inv _ (fun r c => numericCheckStep env df c r)
      · intro r c hr
        unfold numericCheckStep
        split_ifs <;> first | exact hr | exact inv_addIssue _ _
      · apply foldl_inv _ (fun r c => phoneCheckStep df c r)
        · intro r c hr
          unfold phoneCheckStep
          dsimp only
          split_ifs <;> first | exact hr | exact inv_addWarning _ _ hr
        · exact hr

theorem countBranch_inv (x : Except String Nat) (g : Nat -> Report -> Report)
    (r : Report) (h : ReportInv r) (hg : ∀ n, ReportInv (g n r)) :
    ReportInv (countBranch x g r).1 := by
  unfold countBranch
  rcases x with e | n
  · exact h
  · dsimp only
    split_ifs
    · exact hg n
    · exact h

theorem businessRules_inv (df : DFrame) (t : String) (r : Report)
    (h : ReportInv r) : ReportInv (validateBusinessRules df t r).1 := by
  unfold validateBusinessRules
  split_ifs <;>
    first
      | exact h
      | exact countBranch_inv _ _ _ h (fun n => inv_addWarning _ _ h)
      | exact countBranch_inv _ _ _ h (fun n => inv_addIssue _ _)
      | (refine vbind_inv _ _ _ ?_ ?_ <;>
          first
            | exact h
            | exact countBranch_inv _ _ _ h (fun n => inv_addIssue _ _)
            | (intro r hr
               first
                 | exact countBranch_inv _ _ _ hr (fun n => inv_addWarning _ _ hr)
                 | exact hr))

theorem checkDuplicates_inv (df : DFrame) (r : Report) (h : ReportInv r) :
    ReportInv (checkDuplicates df r) := by
  unfold checkDuplicates
  dsimp only
  have h1 : ReportInv { r with duplicate_count := df.rows.length - (dedupKeepFirst df.rows).length } := by
    simpa [ReportInv] using h
  split_ifs <;> first | exact inv_addWarning _ _ h1 | exact h1

theorem ranges_inv (df : DFrame) (rules : Rules) (r : Report)
    (h : ReportInv r) : ReportInv (validateRanges df rules r).1 := by
  unfold validateRanges
  apply vbind_inv
  · apply foldE_inv _ _ _ _ _ h
    intro c r hr
    dsimp only
    split_ifs
    · exact countBranch_inv _ _ _ hr (fun n => inv_addIssue _ _)
    · exact hr
  · intro r hr
    apply foldE_inv _ _ _ _ _ hr
    intro c r hr
    dsimp only
    split_ifs
    · exact countBranch_inv _ _ _ hr (fun n => inv_addIssue _ _)
    · exact hr

theorem runAllChecks_inv (env : Env) (df : DFrame) (t : String) (rules : Rules)
    (r0 : Report) (h : ReportInv r0) : ReportInv (runAllChecks env df t rules r0).1 := by
  unfold runAllChecks
  apply vbind_inv
  · apply vbind_inv
    · apply vbind_inv
      · apply vbind_inv
        · exact requiredColumns_inv df rules r0 h
        · intro r hr; exact nullValues_inv env df rules r hr
      · intro r hr; exact uniqueConstraints_inv df rules r hr
    · intro r hr
      apply vbind_inv
      · exact dataTypes_inv env df rules r hr
      · intro r hr
        apply vbind_inv
        · exact businessRules_inv df t r hr
        · intro r hr; exact checkDuplicates_inv df r hr
  · intro r hr; exact ranges_inv df rules r hr

/-- C1: for every dataset and entity with a defined rule set, the report of
validate_data is valid exactly when its issues list is empty, and appending
a warning never changes validity. -/
theorem C1_is_valid_iff_issues_empty :
    (∀ (env : Env) (D : DFrame) (E : String), validation_rules E ≠ none →
      ((validate_data env D E).is_valid = true ↔ (validate_data env D E).issues = [])) ∧
    (∀ (m : String) (r : Report), (addWarning m r).is_valid = r.is_valid) := by
  constructor
  · intro env D E h
    unfold validate_data
    rcases hv : validation_rules E with _ | rules
    · exact absurd hv h
    · dsimp only
      split_ifs
      · exact inv_addIssue _ _
      · have hinit : ReportInv (initReport D) := by simp [ReportInv, initReport]
        have hrun := runAllChecks_inv env D E rules (initReport D) hinit
        rcases hrc : runAllChecks env D E rules (initReport D) with ⟨r, e⟩
        rw [hrc] at hrun
        cases e with
        | none => exact hrun
        | some msg => exact inv_addIssue _ _
  · intro m r
    rfl

/-- Witness for C1 at a concrete entity with a rule set. -/
theorem C1_witness :
    (validate_data envAny ordersBad "orders").is_valid = true ↔
      (validate_data envAny ordersBad "orders").issues = [] :=
  C1_is_valid_iff_issues_empty.1 envAny ordersBad "orders"
    (by with_unfolding_all decide)

/-- C2 counterexample: the rules lookup precedes the empty check, so for an
entity name without a rule set validate_data returns the permissive initial
report even on the empty dataset, not is_valid false with the
Dataset-is-empty issue that the claim asserts for every entity name. -/
theorem C2_counterexample :
    (validate_data envAny { cols := [], rows := [] } "nonexistent").is_valid = true ∧
    (validate_data envAny { cols := [], rows := [] } "nonexistent").issues = [] := by
  constructor <;> with_unfolding_all rfl

/-- C2 (amended): for every entity name that does have a defined rule set,
validate_data on a dataset with no rows short-circuits to exactly the
report with is_valid false, the single issue Dataset is empty, row_count 0
and no other findings. -/
theorem C2_empty_dataset_amended :
    ∀ (env : Env) (t : String) (rules : Rules) (cols : List Col),
      validation_rules t = some rules →
      validate_data env { cols := cols, rows := [] } t =
        { is_valid := false, issues := ["Dataset is empty"], warnings := [],
          row_count := 0, column_count := cols.length, null_percentages := [],
          duplicate_count := 0 } := by
  intro env t rules cols h
  unfold validate_data
  rw [h]
  rfl

/-- Witness for C2 (amended) at the customers rule set. -/
theorem C2_witness :
    validate_data envAny { cols := [], rows := [] } "customers" =
      { is_valid := false, issues := ["Dataset is empty"], warnings := [],
        row_count := 0, column_count := 0, null_percentages := [],
        duplicate_count := 0 } :=
  C2_empty_dataset_amended envAny "customers" _ [] rfl

/-- C8: load_data stages the dataset into stg_<entity> in the staging
schema with replace mode (never append), then merges that staging table
into the resolved target, and returns the row count written in phase one,
which is the post-transform row count of the dataset. -/
theorem C8_load_data_staging_replace :
    ∀ (data : DFrame) (t : String),
      load_data data t =
        ([LoadEffect.bulkInsert ("stg_" ++ t) "staging" "replace" data.rows.length,
          LoadEffect.mergeToTarget ("stg_" ++ t) (get_target_table_info t)],
         data.rows.length) ∧
      "replace" ≠ "append" := by
  intro data t
  exact ⟨rfl, by decide⟩

theorem execStmt_fst (s : PdStmt) (st st2 : DFrame × Option DFrame)
    (h : execStmt s st = Except.ok st2) : st2.1 = st.1 := by
  rcases st with ⟨d, w⟩
  cases s with
  | readFrames => cases h; rfl
  | copyWork => cases h; rfl
  | updateWork f =>
    cases w with
    | none => cases h; rfl
    | some wdf =>
      dsimp [execStmt] at h
      rcases hf : f wdf with e | v <;> rw [hf] at h
      · cases h
      · cases h; rfl

theorem execProg_fst :
    ∀ (prog : List PdStmt) (st st2 : DFrame × Option DFrame),
      execProg prog st = Except.ok st2 → st2.1 = st.1 := by
  intro prog
  induction prog with
  | nil => intro st st2 h; cases h; rfl
  | cons s ss ih =>
    intro st st2 h
    dsimp [execProg] at h
    rcases hs : execStmt s st with e | st1 <;> rw [hs] at h
    · cases h
    · exact (ih st1 st2 h).trans (execStmt_fst s st st1 hs)

/-- C10: no statement of the object-slot model ever writes the input slot,
the translated statement list of clean_data computes exactly clean_data
while leaving the input object untouched, and the statement list of
validate_data (which contains no DataFrame write) leaves the whole state
unchanged. -/
theorem C10_no_input_mutation :
    (∀ (prog : List PdStmt) (st st2 : DFrame × Option DFrame),
      execProg prog st = Except.ok st2 → st2.1 = st.1) ∧
    (∀ (d : DFrame) (t : String),
      execProg (clean_data_stmts t) (d, none) =
        (clean_data d t).map (fun e => (d, some e))) ∧
    (∀ d : DFrame, execProg validate_data_stmts (d, none) = Except.ok (d, none)) := by
  refine ⟨execProg_fst, ?_, ?_⟩
  · intro d t
    have key : ∀ (x : Except String DFrame),
        x.bind (fun w2 => Except.ok (d, some w2)) = x.map (fun e => (d, some e)) := by
      intro x; cases x <;> rfl
    have bind_pure : ∀ (y : Except String (DFrame × Option DFrame)),
        y.bind (fun st => Except.ok st) = y := by
      intro y; cases y <;> rfl
    have h1 : execProg (clean_data_stmts t) (d, none) =
        ((clean_data d t).bind (fun w2 => Except.ok (d, some w2))).bind
          (fun st => Except.ok st) := by
      with_unfolding_all rfl
    rw [h1, bind_pure]
    exact key _
  · intro d
    rfl

/-- C9: validate_data is total at its interface (it returns a Report for
every input, as its type shows), and whenever the checks inside the try
block raise, the exception is caught and converted: the returned report is
the partially built one with the issue Validation error: <message>
appended and is_valid false. -/
theorem C9_exception_caught_and_converted :
    ∀ (env : Env) (D : DFrame) (t : String) (rules : Rules) (e : String),
      validation_rules t = some rules →
      D.isEmpty = false →
      (runAllChecks env D t rules (initReport D)).2 = some e →
      validate_data env D t =
          addIssue ("Validation error: " ++ e)
            (runAllChecks env D t rules (initReport D)).1 ∧
        (validate_data env D t).is_valid = false ∧
        (validate_data env D t).issues =
          (runAllChecks env D t rules (initReport D)).1.issues ++
            ["Validation error: " ++ e] := by
  intro env D t rules e hr hemp hrun
  unfold validate_data
  rw [hr]
  dsimp only
  rcases hall : runAllChecks env D t rules (initReport D) with ⟨r, eo⟩
  rw [hall] at hrun
  dsimp only at hrun
  subst hrun
  split_ifs with hcond
  · rw [hemp] at hcond
    cases hcond
  · refine ⟨rfl, ?_, ?_⟩ <;> simp [addIssue]

/-- Witness for C9: a products frame whose object-dtype price column makes
the business-rule comparison raise, with the exception surfacing as a
converted issue. -/
theorem C9_witness :
    validate_data envAny productsRaise "products" =
        addIssue ("Validation error: " ++ "TypeError: unorderable types")
          (runAllChecks envAny productsRaise "products" productsRules
            (initReport productsRaise)).1 ∧
      (validate_data envAny productsRaise "products").is_valid = false ∧
      (validate_data envAny productsRaise "products").issues =
        (runAllChecks envAny productsRaise "products" productsRules
            (initReport productsRaise)).1.issues ++
          ["Validation error: " ++ "TypeError: unorderable types"] :=
  C9_exception_caught_and_converted envAny productsRaise "products" productsRules
    "TypeError: unorderable types" rfl rfl (by with_unfolding_all rfl)

/-- C7: an invalid validation report never changes what transform_data
returns (the report is computed and logged, the dispatching transformation
runs on the unmodified input either way), and a table whose extraction is
nonempty and whose transformation succeeds is loaded with its full row
count even when its validation report is invalid. -/
theorem C7_invalid_validation_does_not_block :
    ∀ (env : Env) (cfg : ETLCfg) (D : DFrame) (t : String),
      (validate_data env D t).is_valid = false →
      transform_data env cfg D t = dispatchTransform env D t ∧
      (∀ (source : String → DFrame) (stats : PipelineStats) (td : DFrame),
        source t = D → D.isEmpty = false →
        transform_data env cfg D t = Except.ok td →
        process_table env cfg source stats t =
          ({ stats with
              extracted_records := stats.extracted_records + D.rows.length,
              transformed_records := stats.transformed_records + td.rows.length,
              loaded_records := stats.loaded_records + td.rows.length }, none)) := by
  intro env cfg D t hinv
  constructor
  · rfl
  · intro source stats td hsrc hemp htr
    unfold process_table
    rw [hsrc]
    dsimp only
    split_ifs with hcond
    · rw [hemp] at hcond
      cases hcond
    · rw [htr]
      rfl

/-- Witness for C7: the ordersBad frame is invalid (missing required
columns) yet transform and load proceed and count its single row. -/
theorem C7_witness :
    transform_data envAny cfgDefault ordersBad "orders" =
        dispatchTransform envAny ordersBad "orders" ∧
      process_table envAny cfgDefault (fun _ => ordersBad) initPipelineStats "orders" =
        ({ extracted_records := 1, transformed_records := 1, loaded_records := 1,
           failed_records := 0, processing_time := 0 }, none) := by
  have h := C7_invalid_validation_does_not_block envAny cfgDefault ordersBad "orders"
    (by with_unfolding_all rfl)
  refine ⟨h.1, ?_⟩
  exact h.2 (fun _ => ordersBad) initPipelineStats ordersBadT rfl rfl
    (by with_unfolding_all rfl)

/-- C3 counterexample: cleaning is not idempotent.  First, two rows that
differ only in trailing whitespace survive drop_duplicates (which runs
before stripping) but become equal after stripping, so a second cleaning
drops a row.  Second, an empty-string cell is coerced to None by the first
cleaning, and the second cleaning's astype(str) turns that None into the
literal string None. -/
theorem C3_counterexample :
    (clean_data ordersDirty "orders" =
        Except.ok { cols := [⟨"status", DType.obj⟩], rows := [[Cell.str "a"], [Cell.str "a"]] } ∧
      clean_data { cols := [⟨"status", DType.obj⟩], rows := [[Cell.str "a"], [Cell.str "a"]] } "orders" =
        Except.ok { cols := [⟨"status", DType.obj⟩], rows := [[Cell.str "a"]] } ∧
      ({ cols := [⟨"status", DType.obj⟩], rows := [[Cell.str "a"]] } : DFrame) ≠
        { cols := [⟨"status", DType.obj⟩], rows := [[Cell.str "a"], [Cell.str "a"]] }) ∧
    (clean_data ordersEmptyStr "orders" =
        Except.ok { cols := [⟨"status", DType.obj⟩], rows := [[Cell.null]] } ∧
      clean_data { cols := [⟨"status", DType.obj⟩], rows := [[Cell.null]] } "orders" =
        Except.ok { cols := [⟨"status", DType.obj⟩], rows := [[Cell.str "None"]] } ∧
      Cell.str "None" ≠ Cell.null) :=
  ⟨⟨by with_unfolding_all rfl, by with_unfolding_all rfl, by decide⟩,
   by with_unfolding_all rfl, by with_unfolding_all rfl, by decide⟩

/-- C4 counterexample: with price 0 and cost 5 the derived profit margin is
negative infinity, not null; with line_total 0 and discount_applied 5 the
derived discount percentage is positive infinity, not 0. -/
theorem C4_counterexample :
    ((transformProducts envAny productsZeroPrice).map (fun T => T.getCol "profit_margin") =
        Except.ok (some [Cell.neginf]) ∧ Cell.neginf ≠ Cell.null) ∧
    ((transformOrderItems envAny orderItemsZeroLine).map (fun T => T.getCol "discount_percentage") =
        Except.ok (some [Cell.inf]) ∧ Cell.inf ≠ Cell.num 0) :=
  ⟨⟨by with_unfolding_all rfl, by decide⟩, ⟨by with_unfolding_all rfl, by decide⟩⟩

/-- C6 counterexample: run_full_pipeline does not reset the counters.  A
pipeline object whose statistics already hold 7 extracted records runs a
single one-row table and ends at 8 extracted records; a reset before the
first entity would have left exactly 1. -/
theorem C6_counterexample :
    (run_full_pipeline envAny cfgDefault true (fun _ => ordersBad) 0 statsSeven
        (some ["orders"])).1.extracted_records = 8 ∧ (8 : Nat) ≠ 1 :=
  ⟨by with_unfolding_all rfl, by decide⟩

theorem statsLe_refl (s : PipelineStats) : statsLe s s :=
  ⟨le_refl _, le_refl _, le_refl _, le_refl _⟩

theorem statsLe_trans {a b c : PipelineStats} (h1 : statsLe a b) (h2 : statsLe b c) :
    statsLe a c :=
  ⟨h1.1.trans h2.1, h1.2.1.trans h2.2.1, h1.2.2.1.trans h2.2.2.1, h1.2.2.2.trans h2.2.2.2⟩

theorem process_table_mono (env : Env) (cfg : ETLCfg) (source : String → DFrame)
    (stats : PipelineStats) (t : String) :
    statsLe stats (process_table env cfg source stats t).1 := by
  unfold process_table
  dsimp only
  split_ifs
  · exact statsLe_refl _
  · rcases h : transform_data env cfg (source t) t with e | td <;> dsimp only
    · exact ⟨Nat.le_add_right _ _, le_refl _, le_refl _, Nat.le_add_right _ _⟩
    · exact ⟨Nat.le_add_right _ _, Nat.le_add_right _ _, Nat.le_add_right _ _, le_refl _⟩

theorem runTables_mono (ts : List String) (env : Env) (cfg : ETLCfg)
    (source : String → DFrame) :
    ∀ s : PipelineStats, statsLe s (runTables env cfg source ts s).1 := by
  induction ts with
  | nil => intro s; exact statsLe_refl _
  | cons t ts ih =>
    intro s
    unfold runTables
    rcases h : process_table env cfg source s t with ⟨s2, e⟩
    have m1 : statsLe s s2 := by
      have := process_table_mono env cfg source s t
      rw [h] at this
      exact this
    cases e with
    | none => exact statsLe_trans m1 (ih s2)
    | some msg => exact m1

theorem process_table_counters (env : Env) (cfg : ETLCfg) (source : String → DFrame)
    (s : PipelineStats) (t : String) :
    (process_table env cfg source s t).1.extracted_records =
        s.extracted_records +
          (process_table env cfg source initPipelineStats t).1.extracted_records ∧
      (process_table env cfg source s t).1.transformed_records =
        s.transformed_records +
          (process_table env cfg source initPipelineStats t).1.transformed_records ∧
      (process_table env cfg source s t).1.loaded_records =
        s.loaded_records +
          (process_table env cfg source initPipelineStats t).1.loaded_records ∧
      (process_table env cfg source s t).1.failed_records =
        s.failed_records +
          (process_table env cfg source initPipelineStats t).1.failed_records ∧
      (process_table env cfg source s t).2 =
        (process_table env cfg source initPipelineStats t).2 ∧
      (process_table env cfg source s t).1.processing_time = s.processing_time := by
  unfold process_table
  dsimp only
  split_ifs
  · refine ⟨?_, ?_, ?_, ?_, rfl, rfl⟩ <;> simp [initPipelineStats]
  · rcases h : transform_data env cfg (source t) t with e | td <;> dsimp only
    · refine ⟨?_, ?_, ?_, ?_, rfl, rfl⟩ <;> simp [initPipelineStats]
    · refine ⟨?_, ?_, ?_, ?_, rfl, rfl⟩ <;> simp [initPipelineStats]

theorem runTables_counters (ts : List String) (env : Env) (cfg : ETLCfg)
    (source : String → DFrame) :
    ∀ s : PipelineStats,
      (runTables env cfg source ts s).1.extracted_records =
          s.extracted_records +
            (runTables env cfg source ts initPipelineStats).1.extracted_records ∧
        (runTables env cfg source ts s).1.transformed_records =
          s.transformed_records +
            (runTables env cfg source ts initPipelineStats).1.transformed_records ∧
        (runTables env cfg source ts s).1.loaded_records =
          s.loaded_records +
            (runTables env cfg source ts initPipelineStats).1.loaded_records ∧
        (runTables env cfg source ts s).1.failed_records =
          s.failed_records +
            (runTables env cfg source ts initPipelineStats).1.failed_records ∧
        (runTables env cfg source ts s).2 =
          (runTables env cfg source ts initPipelineStats).2 ∧
        (runTables env cfg source ts s).1.processing_time = s.processing_time := by
  induction ts with
  | nil =>
    intro s
    refine ⟨?_, ?_, ?_, ?_, rfl, rfl⟩ <;> simp [runTables, initPipelineStats]
  | cons t ts ih =>
    intro s
    unfold runTables
    rcases h1 : process_table env cfg source s t with ⟨s2, e⟩
    rcases h0 : process_table env cfg source initPipelineStats t with ⟨z2, e0⟩
    have hp := process_table_counters env cfg source s t
    rw [h1, h0] at hp
    dsimp only at hp
    obtain ⟨he, ht2, hl, hf, hee, htm⟩ := hp
    subst hee
    cases e with
    | none =>
      dsimp only
      obtain ⟨a2, b2, c2, d2, ee2, tt2⟩ := ih s2
      obtain ⟨a0, b0, c0, d0, ee0, tt0⟩ := ih z2
      refine ⟨?_, ?_, ?_, ?_, ?_, ?_⟩
      · rw [a2, a0, he]; omega
      · rw [b2, b0, ht2]; omega
      · rw [c2, c0, hl]; omega
      · rw [d2, d0, hf]; omega
      · rw [ee2, ee0]
      · rw [tt2, htm]
    | some msg =>
      dsimp only
      exact ⟨he, ht2, hl, hf, rfl, htm⟩

/-- C6 (amended): the four record counters are monotonically non-decreasing
across per-entity processing and across a whole run, and run_full_pipeline
performs no reset: the counters it produces are exactly the counters a run
from freshly initialised statistics would produce, shifted by whatever the
pipeline object already held (the counters are zeroed once, in the
pipeline constructor, so a second run on the same object accumulates). -/
theorem C6_counters_monotone_and_never_reset :
    (∀ (env : Env) (cfg : ETLCfg) (source : String → DFrame) (stats : PipelineStats)
        (t : String), statsLe stats (process_table env cfg source stats t).1) ∧
    (∀ (env : Env) (cfg : ETLCfg) (connOk : Bool) (source : String → DFrame)
        (elapsed : ℚ) (stats : PipelineStats) (tables : Option (List String)),
      statsLe stats (run_full_pipeline env cfg connOk source elapsed stats tables).1) ∧
    (∀ (env : Env) (cfg : ETLCfg) (connOk : Bool) (source : String → DFrame)
        (elapsed : ℚ) (stats : PipelineStats) (tables : Option (List String)),
      (run_full_pipeline env cfg connOk source elapsed stats tables).1.extracted_records =
          stats.extracted_records +
            (run_full_pipeline env cfg connOk source elapsed initPipelineStats
              tables).1.extracted_records ∧
        (run_full_pipeline env cfg connOk source elapsed stats tables).1.transformed_records =
          stats.transformed_records +
            (run_full_pipeline env cfg connOk source elapsed initPipelineStats
              tables).1.transformed_records ∧
        (run_full_pipeline env cfg connOk source elapsed stats tables).1.loaded_records =
          stats.loaded_records +
            (run_full_pipeline env cfg connOk source elapsed initPipelineStats
              tables).1.loaded_records ∧
        (run_full_pipeline env cfg connOk source elapsed stats tables).1.failed_records =
          stats.failed_records +
            (run_full_pipeline env cfg connOk source elapsed initPipelineStats
              tables).1.failed_records) := by
  refine ⟨process_table_mono, ?_, ?_⟩
  · intro env cfg connOk source elapsed stats tables
    unfold run_full_pipeline
    dsimp only
    split_ifs
    · exact statsLe_refl _
    · rcases h : runTables env cfg source
          (tables.getD ["customers", "products", "orders", "order_items", "inventory"]) stats
          with ⟨s2, e⟩
      have m := runTables_mono
        (tables.getD ["customers", "products", "orders", "order_items", "inventory"])
        env cfg source stats
      rw [h] at m
      cases e with
      | none => exact m
      | some msg => exact m
  · intro env cfg connOk source elapsed stats tables
    unfold run_full_pipeline
    dsimp only
    split_ifs
    · exact ⟨rfl, rfl, rfl, rfl⟩
    · have hc := runTables_counters
        (tables.getD ["customers", "products", "orders", "order_items", "inventory"])
        env cfg source stats
      rcases h1 : runTables env cfg source
          (tables.getD ["customers", "products", "orders", "order_items", "inventory"]) stats
          with ⟨s2, e⟩
      rcases h0 : runTables env cfg source
          (tables.getD ["customers", "products", "orders", "order_items", "inventory"])
          initPipelineStats with ⟨z2, e0⟩
      rw [h1, h0] at hc
      dsimp only at hc
      obtain ⟨he, ht2, hl, hf, hee, _⟩ := hc
      subst hee
      cases e with
      | none => exact ⟨he, ht2, hl, hf⟩
      | some msg => exact ⟨he, ht2, hl, hf⟩

/-
  Lemmas: column addressing and elementwise series operations.
-/

theorem colIdxAux_append_of_none {name : String} {l1 : List Col} (l2 : List Col)
    (h : colIdxAux name l1 = none) :
    colIdxAux name (l1 ++ l2) = (colIdxAux name l2).map (· + l1.length) := by
  induction l1 with
  | nil =>
    simp only [List.nil_append, List.length_nil]
    cases hx : colIdxAux name l2 <;> simp [hx]
  | cons c l1 ih =>
    simp only [colIdxAux] at h
    split_ifs at h with hc
    simp only [Option.map_eq_none'] at h
    simp only [List.cons_append, colIdxAux, List.append_eq]
    rw [if_neg hc, ih h]
    cases hx : colIdxAux name l2 <;> simp [hx] <;> omega

theorem colIdxAux_append_of_some {name : String} {l1 : List Col} {i : Nat}
    (l2 : List Col) (h : colIdxAux name l1 = some i) :
    colIdxAux name (l1 ++ l2) = some i := by
  induction l1 generalizing i with
  | nil => cases h
  | cons c l1 ih =>
    simp only [colIdxAux] at h
    simp only [List.cons_append, colIdxAux, List.append_eq]
    split_ifs at h ⊢ with hc
    · exact h
    · rcases hr : colIdxAux name l1 with _ | j
      · rw [hr] at h
        simp at h
      · rw [hr] at h
        rw [ih hr]
        exact h

theorem colIdxAux_lt_length {name : String} {l : List Col} {i : Nat}
    (h : colIdxAux name l = some i) : i < l.length := by
  induction l generalizing i with
  | nil => cases h
  | cons c l ih =>
    simp only [colIdxAux] at h
    split_ifs at h with hc
    · cases h; simp
    · rcases hr : colIdxAux name l with _ | j
      · rw [hr] at h
        simp at h
      · rw [hr] at h
        simp only [Option.map_some', Option.some_inj] at h
        have := ih hr
        simp only [List.length_cons]
        omega

theorem colIdxAux_none_of_not_any {name : String} {l : List Col}
    (h : l.any (fun c => c.name = name) = false) : colIdxAux name l = none := by
  induction l with
  | nil => rfl
  | cons c l ih =>
    simp only [List.any_cons, Bool.or_eq_false_iff] at h
    simp only [colIdxAux]
    rw [if_neg (by simpa using h.1), ih h.2]
    rfl

theorem colIdxAux_some_of_any {name : String} {l : List Col}
    (h : l.any (fun c => c.name = name) = true) : ∃ i, colIdxAux name l = some i := by
  induction l with
  | nil => cases h
  | cons c l ih =>
    simp only [List.any_cons, Bool.or_eq_true] at h
    unfold colIdxAux
    by_cases hc : c.name = name
    · exact ⟨0, by rw [if_pos hc]⟩
    · rcases h with h | h
      · exact absurd (by simpa using h) hc
      · rcases ih h with ⟨i, hi⟩
        exact ⟨i + 1, by rw [if_neg hc, hi]; rfl⟩

theorem colIdx_none_of_hasCol_false {df : DFrame} {name : String}
    (h : df.hasCol name = false) : df.colIdx name = none :=
  colIdxAux_none_of_not_any h

theorem getD_append_len (l : List Cell) (v : Cell) :
    (l ++ [v]).getD l.length Cell.null = v := by
  induction l with
  | nil => rfl
  | cons c l ih => simpa using ih

theorem getD_append_lt (l : List Cell) (v : Cell) {i : Nat} (h : i < l.length) :
    (l ++ [v]).getD i Cell.null = l.getD i Cell.null := by
  induction l generalizing i with
  | nil => cases h
  | cons c l ih =>
    cases i with
    | zero => rfl
    | succ j =>
      simp only [List.length_cons] at h
      simpa using ih (by omega)

/-- setCol on a fresh label appends the column on the right. -/
theorem setCol_append (df : DFrame) (name : String) (dt : DType) (vals : List Cell)
    (h : df.hasCol name = false) :
    setCol df name dt vals =
      { cols := df.cols ++ [⟨name, dt⟩]
        rows := List.zipWith (fun r v => r ++ [v]) df.rows vals } := by
  unfold setCol
  rw [colIdx_none_of_hasCol_false h]

theorem map_getD_zipWith_append (rows : List (List Cell)) (vals : List Cell) (n : Nat)
    (hwf : ∀ r ∈ rows, r.length = n) (hlen : vals.length = rows.length) :
    (List.zipWith (fun r v => r ++ [v]) rows vals).map
      (fun r => r.getD n Cell.null) = vals := by
  induction rows generalizing vals with
  | nil => cases vals with
    | nil => rfl
    | cons v vs => cases hlen
  | cons r rows ih =>
    cases vals with
    | nil => cases hlen
    | cons v vs =>
      simp only [List.zipWith_cons_cons, List.map_cons]
      have hr : r.length = n := hwf r (by simp)
      have h1 : (r ++ [v]).getD n Cell.null = v := by
        rw [← hr]; exact getD_append_len r v
      rw [h1, ih vs (fun x hx => hwf x (by simp [hx])) (by simpa using hlen)]

theorem map_getD_zipWith_append_lt (rows : List (List Cell)) (vals : List Cell)
    (n i : Nat) (hwf : ∀ r ∈ rows, r.length = n) (hlen : vals.length = rows.length)
    (hi : i < n) :
    (List.zipWith (fun r v => r ++ [v]) rows vals).map
      (fun r => r.getD i Cell.null) = rows.map (fun r => r.getD i Cell.null) := by
  induction rows generalizing vals with
  | nil => cases vals <;> rfl
  | cons r rows ih =>
    cases vals with
    | nil => cases hlen
    | cons v vs =>
      simp only [List.zipWith_cons_cons, List.map_cons]
      have hr : r.length = n := hwf r (by simp)
      rw [getD_append_lt r v (by omega)]
      rw [ih vs (fun x hx => hwf x (by simp [hx])) (by simpa using hlen)]

/-- getCol of a freshly appended column. -/
theorem getCol_setCol_self (df : DFrame) (name : String) (dt : DType)
    (vals : List Cell) (h : df.hasCol name = false) (hwf : df.WF)
    (hlen : vals.length = df.rows.length) :
    (setCol df name dt vals).getCol name = some vals := by
  rw [setCol_append df name dt vals h]
  unfold DFrame.getCol DFrame.colIdx
  dsimp only
  rw [colIdxAux_append_of_none _ (colIdx_none_of_hasCol_false h)]
  have h1 : colIdxAux name [(⟨name, dt⟩ : Col)] = some 0 := by
    simp [colIdxAux]
  rw [h1]
  simp only [Option.map_some', Nat.zero_add]
  rw [map_getD_zipWith_append df.rows vals df.cols.length hwf hlen]

/-- getCol of an existing column after appending a fresh one. -/
theorem getCol_setCol_other (df : DFrame) (name : String) (dt : DType)
    (vals : List Cell) (m : String) (h : df.hasCol name = false) (hwf : df.WF)
    (hlen : vals.length = df.rows.length) {i : Nat} (hm : df.colIdx m = some i) :
    (setCol df name dt vals).getCol m = df.getCol m := by
  rw [setCol_append df name dt vals h]
  unfold DFrame.getCol DFrame.colIdx
  dsimp only
  have hm2 : colIdxAux m df.cols = some i := hm
  rw [colIdxAux_append_of_some _ hm2, hm2]
  simp only [Option.map_some']
  rw [map_getD_zipWith_append_lt df.rows vals df.cols.length i hwf hlen
    (colIdxAux_lt_length hm2)]

theorem getCol_length {df : DFrame} {name : String} {l : List Cell}
    (h : df.getCol name = some l) : l.length = df.rows.length := by
  unfold DFrame.getCol at h
  rcases hx : df.colIdx name with _ | i <;> rw [hx] at h
  · cases h
  · cases h
    simp

theorem mem_zipWith_append {rows : List (List Cell)} {vals : List Cell}
    {r : List Cell}
    (h : r ∈ List.zipWith (fun r v => r ++ [v]) rows vals) :
    ∃ x ∈ rows, ∃ v, r = x ++ [v] := by
  induction rows generalizing vals with
  | nil => cases h
  | cons x rows ih =>
    cases vals with
    | nil => cases h
    | cons v vs =>
      simp only [List.zipWith_cons_cons, List.mem_cons] at h
      rcases h with h | h
      · exact ⟨x, by simp, v, h⟩
      · rcases ih h with ⟨y, hy, w, hw⟩
        exact ⟨y, by simp [hy], w, hw⟩

/-- The frame stays rectangular after appending a fresh column. -/
theorem WF_setCol_append (df : DFrame) (name : String) (dt : DType)
    (vals : List Cell) (h : df.hasCol name = false) (hwf : df.WF) :
    (setCol df name dt vals).WF := by
  rw [setCol_append df name dt vals h]
  intro r hr
  rcases mem_zipWith_append hr with ⟨x, hx, v, rfl⟩
  simp only [List.length_append, List.length_cons, List.length_nil, hwf x hx]

theorem hasCol_setCol_append (df : DFrame) (name : String) (dt : DType)
    (vals : List Cell) (m : String) (h : df.hasCol name = false) :
    (setCol df name dt vals).hasCol m = (df.hasCol m || name = m) := by
  rw [setCol_append df name dt vals h]
  simp [DFrame.hasCol, List.any_append]

theorem bindOkInv {α β : Type} {x : Except String α} {k : α → Except String β}
    {b : β} (h : x.bind k = Except.ok b) :
    ∃ a, x = Except.ok a ∧ k a = Except.ok b := by
  cases x with
  | error e => cases h
  | ok a => exact ⟨a, rfl, h⟩

theorem getColE_of_getCol {df : DFrame} {name : String} {l : List Cell}
    (h : df.getCol name = some l) : getColE df name = Except.ok l := by
  unfold getColE
  rw [h]

theorem zipCellsE_ok_get {f : Cell → Cell → Except String Cell} :
    ∀ {xs ys zs : List Cell}, zipCellsE f xs ys = Except.ok zs →
      ∀ {i : Nat} {x y : Cell}, xs[i]? = some x → ys[i]? = some y →
        ∃ z, f x y = Except.ok z ∧ zs[i]? = some z := by
  intro xs
  induction xs with
  | nil => intro ys zs _ i x y hx _; cases hx
  | cons a xs ih =>
    intro ys zs h i x y hx hy
    cases ys with
    | nil => cases hy
    | cons b ys =>
      unfold zipCellsE at h
      simp only [List.zip_cons_cons, List.mapM_cons] at h
      rcases bindOkInv h with ⟨z0, hz0, h⟩
      rcases bindOkInv h with ⟨rest, hrest, h⟩
      cases h
      cases i with
      | zero =>
        rw [List.getElem?_cons_zero] at hx hy
        cases hx; cases hy
        exact ⟨z0, hz0, by simp⟩
      | succ j =>
        rw [List.getElem?_cons_succ] at hx hy
        rcases ih hrest hx hy with ⟨z, hz, hzs⟩
        exact ⟨z, hz, by simpa using hzs⟩

theorem zipCellsE_ok_length {f : Cell → Cell → Except String Cell} :
    ∀ {xs ys zs : List Cell}, zipCellsE f xs ys = Except.ok zs →
      zs.length = min xs.length ys.length := by
  intro xs
  induction xs with
  | nil =>
    intro ys zs h
    cases h
    simp
  | cons a xs ih =>
    intro ys zs h
    cases ys with
    | nil => cases h; simp
    | cons b ys =>
      unfold zipCellsE at h
      simp only [List.zip_cons_cons, List.mapM_cons] at h
      rcases bindOkInv h with ⟨z0, _, h⟩
      rcases bindOkInv h with ⟨rest, hrest, h⟩
      cases h
      have := ih hrest
      simp only [List.length_cons, this]
      omega

theorem mapM_ok_get {f : Cell → Except String Cell} :
    ∀ {xs ys : List Cell}, xs.mapM f = Except.ok ys →
      ∀ {i : Nat} {x : Cell}, xs[i]? = some x →
        ∃ y, f x = Except.ok y ∧ ys[i]? = some y := by
  intro xs
  induction xs with
  | nil => intro ys _ i x hx; cases hx
  | cons a xs ih =>
    intro ys h i x hx
    simp only [List.mapM_cons] at h
    rcases bindOkInv h with ⟨y0, hy0, h⟩
    rcases bindOkInv h with ⟨rest, hrest, h⟩
    cases h
    cases i with
    | zero =>
      rw [List.getElem?_cons_zero] at hx
      cases hx
      exact ⟨y0, hy0, by simp⟩
    | succ j =>
      rw [List.getElem?_cons_succ] at hx
      rcases ih hrest hx with ⟨y, hy, hys⟩
      exact ⟨y, hy, by simpa using hys⟩

theorem mapM_ok_length {f : Cell → Except String Cell} :
    ∀ {xs ys : List Cell}, xs.mapM f = Except.ok ys → ys.length = xs.length := by
  intro xs
  induction xs with
  | nil => intro ys h; cases h; rfl
  | cons a xs ih =>
    intro ys h
    simp only [List.mapM_cons] at h
    rcases bindOkInv h with ⟨y0, _, h⟩
    rcases bindOkInv h with ⟨rest, hrest, h⟩
    cases h
    simp [ih hrest]

theorem getD_set_ne (r : List Cell) (j k : Nat) (v d : Cell) (h : j ≠ k) :
    (r.set j v).getD k d = r.getD k d := by
  simp [List.getD_eq_getElem?_getD, List.getElem?_set_ne h]

theorem colIdxAux_names {name : String} {l : List Col} {i : Nat}
    (h : colIdxAux name l = some i) : ∃ c, l[i]? = some c ∧ c.name = name := by
  induction l generalizing i with
  | nil => cases h
  | cons c l ih =>
    simp only [colIdxAux] at h
    split_ifs at h with hc
    · cases h
      exact ⟨c, by simp, hc⟩
    · rcases hr : colIdxAux name l with _ | j
      · rw [hr] at h
        simp at h
      · rw [hr] at h
        simp only [Option.map_some', Option.some_inj] at h
        cases h
        rcases ih hr with ⟨c2, hc2, hn⟩
        exact ⟨c2, by simpa using hc2, hn⟩

theorem colIdxAux_inj {n m : String} {l : List Col} {i : Nat}
    (h1 : colIdxAux n l = some i) (h2 : colIdxAux m l = some i) : n = m := by
  rcases colIdxAux_names h1 with ⟨c1, hc1, hn1⟩
  rcases colIdxAux_names h2 with ⟨c2, hc2, hn2⟩
  rw [hc1] at hc2
  cases hc2
  rw [← hn1, hn2]

theorem getCol_mapColCells_ne (df : DFrame) (n : String) (f : Cell → Cell)
    (m : String) (hnm : n ≠ m) :
    (mapColCells n f df).getCol m = df.getCol m := by
  unfold mapColCells
  rcases hj : df.colIdx n with _ | j
  · rfl
  · unfold DFrame.getCol DFrame.colIdx
    dsimp only
    rcases hk : colIdxAux m df.cols with _ | k
    · rfl
    · simp only [Option.map_some']
      have hjk : j ≠ k := by
        intro hh
        subst hh
        exact hnm (colIdxAux_inj hj hk)
      congr 1
      rw [List.map_map]
      apply List.map_congr_left
      intro r _
      simp only [Function.comp_apply]
      exact getD_set_ne r j k _ _ hjk

theorem strColReq_ok {name : String} {f : String → String} {df T : DFrame}
    (h : strColReq name f df = Except.ok T) :
    T = mapColCells name (strAcc f) df := by
  unfold strColReq at h
  split_ifs at h
  cases h
  rfl

theorem strColReq_ok_of (name : String) (f : String → String) (df : DFrame)
    (h1 : df.hasCol name = true) (h2 : df.dtypeOf name = some DType.obj) :
    strColReq name f df = Except.ok (mapColCells name (strAcc f) df) := by
  unfold strColReq
  rw [h1, h2]
  simp

theorem zipCellsE_total {f : Cell → Cell → Except String Cell} :
    ∀ (xs ys : List Cell),
      (∀ p ∈ xs.zip ys, ∃ z, f p.1 p.2 = Except.ok z) →
      ∃ zs, zipCellsE f xs ys = Except.ok zs := by
  intro xs
  induction xs with
  | nil => intro ys _; exact ⟨[], rfl⟩
  | cons a xs ih =>
    intro ys h
    cases ys with
    | nil => exact ⟨[], rfl⟩
    | cons b ys =>
      rcases h (a, b) (by simp) with ⟨z, hz⟩
      rcases ih ys (fun p hp => h p (by simp [hp])) with ⟨zs, hzs⟩
      refine ⟨z :: zs, ?_⟩
      unfold zipCellsE at hzs ⊢
      rw [List.zip_cons_cons, List.mapM_cons, hz]
      show (List.mapM (fun p => f p.1 p.2) (xs.zip ys)).bind _ = _
      rw [hzs]
      rfl

theorem mapM_total {f : Cell → Except String Cell} :
    ∀ (xs : List Cell), (∀ x ∈ xs, ∃ y, f x = Except.ok y) →
      ∃ ys, xs.mapM f = Except.ok ys := by
  intro xs
  induction xs with
  | nil => intro _; exact ⟨[], rfl⟩
  | cons a xs ih =>
    intro h
    rcases h a (by simp) with ⟨y, hy⟩
    rcases ih (fun x hx => h x (by simp [hx])) with ⟨ys, hys⟩
    refine ⟨y :: ys, ?_⟩
    rw [List.mapM_cons, hy]
    show (List.mapM f xs).bind _ = _
    rw [hys]
    rfl

theorem zipCellsE_forall_mem {f : Cell → Cell → Except String Cell}
    {P : Cell → Prop} :
    ∀ {xs ys zs : List Cell}, zipCellsE f xs ys = Except.ok zs →
      (∀ p ∈ xs.zip ys, ∀ z, f p.1 p.2 = Except.ok z → P z) →
      ∀ z ∈ zs, P z := by
  intro xs
  induction xs with
  | nil =>
    intro ys zs h _ z hz
    cases h
    cases hz
  | cons a xs ih =>
    intro ys zs h hf z hz
    cases ys with
    | nil => cases h; cases hz
    | cons b ys =>
      unfold zipCellsE at h
      simp only [List.zip_cons_cons, List.mapM_cons] at h
      rcases bindOkInv h with ⟨z0, hz0, h⟩
      rcases bindOkInv h with ⟨rest, hrest, h⟩
      cases h
      rcases List.mem_cons.mp hz with hz | hz
      · subst hz
        exact hf (a, b) (by simp) z hz0
      · exact ih hrest (fun p hp => hf p (by simp [hp])) z hz

theorem mapM_forall_mem {f : Cell → Except String Cell} {P : Cell → Prop} :
    ∀ {xs ys : List Cell}, xs.mapM f = Except.ok ys →
      (∀ x ∈ xs, ∀ y, f x = Except.ok y → P y) → ∀ y ∈ ys, P y := by
  intro xs
  induction xs with
  | nil =>
    intro ys h _ y hy
    cases h
    cases hy
  | cons a xs ih =>
    intro ys h hf y hy
    simp only [List.mapM_cons] at h
    rcases bindOkInv h with ⟨y0, hy0, h⟩
    rcases bindOkInv h with ⟨rest, hrest, h⟩
    cases h
    rcases List.mem_cons.mp hy with hy | hy
    · subst hy
      exact hf a (by simp) y hy0
    · exact ih hrest (fun x hx => hf x (by simp [hx])) y hy

theorem cellSub_ok_notStr {a b : Cell} (ha : a.isStr = false) (hb : b.isStr = false) :
    ∃ z, cellSub a b = Except.ok z ∧ z.isStr = false := by
  cases a <;> cases b <;> simp [Cell.isStr] at ha hb <;>
    exact ⟨_, rfl, rfl⟩

theorem cellDiv_ok_notStr {a b : Cell} (ha : a.isStr = false) (hb : b.isStr = false) :
    ∃ z, cellDiv a b = Except.ok z ∧ z.isStr = false := by
  cases a <;> cases b <;> simp [Cell.isStr] at ha hb <;>
    exact ⟨_, rfl, by first | rfl | (split_ifs <;> rfl)⟩

theorem cellMul_ok_notStr {a b : Cell} (ha : a.isStr = false) (hb : b.isStr = false) :
    ∃ z, cellMul a b = Except.ok z ∧ z.isStr = false := by
  cases a <;> cases b <;> simp [Cell.isStr] at ha hb <;>
    exact ⟨_, rfl, by first | rfl | (split_ifs <;> rfl)⟩

theorem colIdx_of_getCol {df : DFrame} {m : String} {l : List Cell}
    (h : df.getCol m = some l) : ∃ i, df.colIdx m = some i := by
  unfold DFrame.getCol at h
  rcases hx : df.colIdx m with _ | i
  · rw [hx] at h; cases h
  · exact ⟨i, rfl⟩

theorem round2_zero : pyRound2 0 = 0 := by
  with_unfolding_all rfl

theorem prodMarginCells_aux (env : Env) (df : DFrame) (ps cs : List Cell)
    (hwf : df.WF) (hno : df.hasCol "profit_margin" = false)
    (hps : df.getCol "price" = some ps) (hcs : df.getCol "cost" = some cs)
    {T : DFrame} (hT : transformProducts env df = Except.ok T) :
    ∃ diff ratio margin,
      zipCellsE cellSub ps cs = Except.ok diff ∧
      zipCellsE cellDiv diff ps = Except.ok ratio ∧
      ratio.mapM (fun c => cellMul c (Cell.num 100)) = Except.ok margin ∧
      T.getCol "profit_margin" = some (margin.map round2Cell) := by
  unfold transformProducts at hT
  obtain ⟨ps2, hp2, hT⟩ := bindOkInv hT
  rw [getColE_of_getCol hps] at hp2
  cases hp2
  obtain ⟨cs2, hc2, hT⟩ := bindOkInv hT
  rw [getColE_of_getCol hcs] at hc2
  cases hc2
  obtain ⟨diff, hdiff, hT⟩ := bindOkInv hT
  obtain ⟨ratio, hratio, hT⟩ := bindOkInv hT
  obtain ⟨margin, hmargin, hT⟩ := bindOkInv hT
  have hTeq := strColReq_ok hT
  have hlen : (margin.map round2Cell).length = df.rows.length := by
    have l1 := getCol_length hps
    have l2 := getCol_length hcs
    have l3 := zipCellsE_ok_length hdiff
    have l4 := zipCellsE_ok_length hratio
    have l5 := mapM_ok_length hmargin
    simp only [List.length_map]
    omega
  refine ⟨diff, ratio, margin, hdiff, hratio, hmargin, ?_⟩
  rw [hTeq]
  rw [getCol_mapColCells_ne _ _ _ _ (by decide)]
  exact getCol_setCol_self df _ _ _ hno hwf hlen

theorem bind_ok_reduce {α β : Type} (a : α) (k : α → Except String β) :
    (Except.ok a >>= k) = k a := rfl

theorem dtypeOf_setCol_append (df : DFrame) (n : String) (dt : DType)
    (vals : List Cell) (m : String) {d : DType} (hno : df.hasCol n = false)
    (hm : df.dtypeOf m = some d) : (setCol df n dt vals).dtypeOf m = some d := by
  rw [setCol_append df _ _ _ hno]
  unfold DFrame.dtypeOf at hm ⊢
  dsimp only
  rcases hf : df.cols.find? (fun c => c.name = m) with _ | c
  · rw [hf] at hm; cases hm
  · rw [hf] at hm
    rw [List.find?_append, hf]
    exact hm

theorem orderItemsDisc_aux (env : Env) (df : DFrame) (qs us ds : List Cell)
    (hwf : df.WF) (hnoLT : df.hasCol "line_total" = false)
    (hnoDP : df.hasCol "discount_percentage" = false)
    (hq : df.getCol "quantity" = some qs) (hu : df.getCol "unit_price" = some us)
    (hd : df.getCol "discount_applied" = some ds)
    {T : DFrame} (hT : transformOrderItems env df = Except.ok T) :
    ∃ lt ratio pct,
      zipCellsE cellMul qs us = Except.ok lt ∧
      zipCellsE cellDiv ds lt = Except.ok ratio ∧
      ratio.mapM (fun c => cellMul c (Cell.num 100)) = Except.ok pct ∧
      T.getCol "discount_percentage" = some ((pct.map fillna0Cell).map round2Cell) := by
  unfold transformOrderItems at hT
  obtain ⟨qs2, h1, hT⟩ := bindOkInv hT
  rw [getColE_of_getCol hq] at h1
  cases h1
  obtain ⟨us2, h2, hT⟩ := bindOkInv hT
  rw [getColE_of_getCol hu] at h2
  cases h2
  obtain ⟨lt, hlt, hT⟩ := bindOkInv hT
  have hltlen : lt.length = df.rows.length := by
    have l1 := zipCellsE_ok_length hlt
    have l2 := getCol_length hq
    have l3 := getCol_length hu
    omega
  obtain ⟨i0, hi0⟩ := colIdx_of_getCol hd
  have hdf1d : (setCol df "line_total" DType.numeric lt).getCol "discount_applied" = some ds := by
    rw [getCol_setCol_other df _ _ lt "discount_applied" hnoLT hwf hltlen hi0]
    exact hd
  obtain ⟨ds2, h3, hT⟩ := bindOkInv hT
  rw [getColE_of_getCol hdf1d] at h3
  cases h3
  have hdf1lt : (setCol df "line_total" DType.numeric lt).getCol "line_total" = some lt :=
    getCol_setCol_self df _ _ lt hnoLT hwf hltlen
  obtain ⟨lt2, h4, hT⟩ := bindOkInv hT
  rw [getColE_of_getCol hdf1lt] at h4
  cases h4
  obtain ⟨ratio, hratio, hT⟩ := bindOkInv hT
  obtain ⟨pct, hpct, hT⟩ := bindOkInv hT
  cases hT
  refine ⟨lt, ratio, pct, hlt, hratio, hpct, ?_⟩
  have hrows1 : (setCol df "line_total" DType.numeric lt).rows.length = df.rows.length := by
    rw [setCol_append df _ _ lt hnoLT]
    simp only [List.length_zipWith]
    omega
  apply getCol_setCol_self
  · rw [hasCol_setCol_append df _ _ lt "discount_percentage" hnoLT]
    rw [hnoDP]
    decide
  · exact WF_setCol_append df _ _ lt hnoLT hwf
  · have l4 := zipCellsE_ok_length hratio
    have l5 := mapM_ok_length hpct
    have l6 := getCol_length hd
    simp only [List.length_map]
    omega

theorem zipWith_getElem?_inv {α β γ : Type} (g : α → β → γ) :
    ∀ (as : List α) (bs : List β) (i : Nat) {c : γ},
      (List.zipWith g as bs)[i]? = some c →
      ∃ a b, as[i]? = some a ∧ bs[i]? = some b ∧ c = g a b := by
  intro as
  induction as with
  | nil => intro bs i c h; simp at h
  | cons a as ih =>
    intro bs i c h
    cases bs with
    | nil => simp at h
    | cons b bs =>
      cases i with
      | zero =>
        rw [List.zipWith_cons_cons, List.getElem?_cons_zero] at h
        cases h
        exact ⟨a, b, List.getElem?_cons_zero, List.getElem?_cons_zero, rfl⟩
      | succ n =>
        rw [List.zipWith_cons_cons, List.getElem?_cons_succ] at h
        obtain ⟨x, y, hx, hy, hc⟩ := ih bs n h
        exact ⟨x, y, by rw [List.getElem?_cons_succ]; exact hx,
          by rw [List.getElem?_cons_succ]; exact hy, hc⟩

theorem zip_getElem?_inv {α β : Type} {as : List α} {bs : List β} {i : Nat}
    {c : α × β} (h : (as.zip bs)[i]? = some c) :
    as[i]? = some c.1 ∧ bs[i]? = some c.2 := by
  obtain ⟨a, b, ha, hb, hc⟩ := zipWith_getElem?_inv Prod.mk as bs i h
  subst hc
  exact ⟨ha, hb⟩

theorem mapM_pointwise {α β : Type} (f : α → Except String β) :
    ∀ (xs : List α) (ys : List β), xs.length = ys.length →
      (∀ (i : Nat) (x : α) (y : β), xs[i]? = some x → ys[i]? = some y →
        f x = Except.ok y) →
      xs.mapM f = Except.ok ys := by
  intro xs
  induction xs with
  | nil =>
    intro ys hlen _
    cases ys with
    | nil => rfl
    | cons y ys => cases hlen
  | cons x xs ih =>
    intro ys hlen hpt
    cases ys with
    | nil => cases hlen
    | cons y ys =>
      have hx : f x = Except.ok y :=
        hpt 0 x y List.getElem?_cons_zero List.getElem?_cons_zero
      have hrest := ih ys (by simpa using hlen)
        (fun i a b ha hb => hpt (i + 1) a b (by simpa using ha) (by simpa using hb))
      rw [List.mapM_cons, hx, hrest]
      rfl

theorem zipCellsE_sub_num : ∀ (qs rs : List ℚ),
    zipCellsE cellSub (qs.map Cell.num) (rs.map Cell.num) =
      Except.ok ((qs.zip rs).map (fun p => Cell.num (p.1 - p.2))) := by
  intro qs
  induction qs with
  | nil => intro rs; rfl
  | cons q qs ih =>
    intro rs
    cases rs with
    | nil => rfl
    | cons r rs =>
      have := ih rs
      unfold zipCellsE at this ⊢
      simp only [List.map_cons, List.zip_cons_cons, List.mapM_cons, this, bind_ok_reduce]
      rfl

theorem getStockStatus_eval (cols : List Col) (r : List Cell) (a l : ℚ) {iRL : Nat}
    (hnoAV : colIdxAux "available_quantity" cols = none)
    (hiRL : colIdxAux "reorder_level" cols = some iRL)
    (hlen : r.length = cols.length)
    (hrl : r.getD iRL Cell.null = Cell.num l) :
    getStockStatus (cols ++ [⟨"available_quantity", DType.numeric⟩])
        (r ++ [Cell.num a]) =
      Except.ok (Cell.str (stockStatusSpec a l)) := by
  have h1 : colIdxAux "available_quantity"
      (cols ++ [⟨"available_quantity", DType.numeric⟩]) = some cols.length := by
    rw [colIdxAux_append_of_none _ hnoAV]
    simp [colIdxAux]
  have h2 : rowGet (cols ++ [⟨"available_quantity", DType.numeric⟩])
      (r ++ [Cell.num a]) "available_quantity" = Except.ok (Cell.num a) := by
    unfold rowGet
    rw [h1]
    show Except.ok ((r ++ [Cell.num a]).getD cols.length Cell.null) = _
    rw [← hlen, getD_append_len]
  have h1r : colIdxAux "reorder_level"
      (cols ++ [⟨"available_quantity", DType.numeric⟩]) = some iRL :=
    colIdxAux_append_of_some _ hiRL
  have h3 : rowGet (cols ++ [⟨"available_quantity", DType.numeric⟩])
      (r ++ [Cell.num a]) "reorder_level" = Except.ok (Cell.num l) := by
    unfold rowGet
    rw [h1r]
    show Except.ok ((r ++ [Cell.num a]).getD iRL Cell.null) = _
    rw [getD_append_lt r _ (by rw [hlen]; exact colIdxAux_lt_length hiRL), hrl]
  unfold getStockStatus
  rw [h2, bind_ok_reduce,
    show cellLe (Cell.num a) (Cell.num 0) = Except.ok (decide (a ≤ 0)) from rfl,
    bind_ok_reduce]
  by_cases ha : a ≤ 0
  · simp [ha, stockStatusSpec]
    with_unfolding_all rfl
  · rw [if_neg (by simp [ha])]
    rw [h3, bind_ok_reduce,
      show cellLe (Cell.num a) (Cell.num l) = Except.ok (decide (a ≤ l)) from rfl,
      bind_ok_reduce]
    by_cases hal : a ≤ l
    · simp [ha, hal, stockStatusSpec]
      with_unfolding_all rfl
    · simp [ha, hal, stockStatusSpec]
      with_unfolding_all rfl

/-- C5: on an inventory frame whose quantity_on_hand, quantity_reserved and
reorder_level columns hold plain numbers, the transform succeeds, derives
available_quantity = quantity_on_hand - quantity_reserved rowwise, and sets
stock_status to Out of Stock when available_quantity <= 0, Low Stock when
available_quantity <= reorder_level, and In Stock otherwise. -/
theorem C5_inventory_transform (env : Env) (df : DFrame) (qs rs ls : List ℚ)
    (hwf : df.WF)
    (hnoAV : df.hasCol "available_quantity" = false)
    (hnoSS : df.hasCol "stock_status" = false)
    (hq : df.getCol "quantity_on_hand" = some (qs.map Cell.num))
    (hr : df.getCol "quantity_reserved" = some (rs.map Cell.num))
    (hl : df.getCol "reorder_level" = some (ls.map Cell.num)) :
    ∃ T, transformInventory env df = Except.ok T ∧
      T.getCol "available_quantity" =
        some ((qs.zip rs).map (fun p => Cell.num (p.1 - p.2))) ∧
      T.getCol "stock_status" =
        some (((qs.zip rs).zip ls).map
          (fun p => Cell.str (stockStatusSpec (p.1.1 - p.1.2) p.2))) := by
  have hql : qs.length = df.rows.length := by
    have := getCol_length hq
    simpa using this
  have hrl2 : rs.length = df.rows.length := by
    have := getCol_length hr
    simpa using this
  have hll : ls.length = df.rows.length := by
    have := getCol_length hl
    simpa using this
  obtain ⟨iRL, hiRL⟩ := colIdx_of_getCol hl
  have hlvals : df.rows.map (fun r => r.getD iRL Cell.null) = ls.map Cell.num := by
    unfold DFrame.getCol at hl
    rw [hiRL] at hl
    simpa using hl
  have havlen : ((qs.zip rs).map (fun p => Cell.num (p.1 - p.2))).length =
      df.rows.length := by
    simp only [List.length_map, List.length_zip]
    omega
  have hsub : zipCellsE cellSub (qs.map Cell.num) (rs.map Cell.num) =
      Except.ok ((qs.zip rs).map (fun p => Cell.num (p.1 - p.2))) :=
    zipCellsE_sub_num qs rs
  have hdf1 : setCol df "available_quantity" DType.numeric
      ((qs.zip rs).map (fun p => Cell.num (p.1 - p.2))) =
      { cols := df.cols ++ [⟨"available_quantity", DType.numeric⟩]
        rows := List.zipWith (fun r v => r ++ [v]) df.rows
          ((qs.zip rs).map (fun p => Cell.num (p.1 - p.2))) } :=
    setCol_append df _ _ _ hnoAV
  have hstlen : (((qs.zip rs).zip ls).map
      (fun p => Cell.str (stockStatusSpec (p.1.1 - p.1.2) p.2))).length =
      df.rows.length := by
    simp only [List.length_map, List.length_zip]
    omega
  have hstatus : (setCol df "available_quantity" DType.numeric
        ((qs.zip rs).map (fun p => Cell.num (p.1 - p.2)))).rows.mapM
      (getStockStatus (setCol df "available_quantity" DType.numeric
        ((qs.zip rs).map (fun p => Cell.num (p.1 - p.2)))).cols) =
      Except.ok (((qs.zip rs).zip ls).map
        (fun p => Cell.str (stockStatusSpec (p.1.1 - p.1.2) p.2))) := by
    rw [hdf1]
    refine mapM_pointwise _ _ _ ?_ ?_
    · simp only [List.length_zipWith, List.length_map, List.length_zip]
      omega
    · intro i r' y hr' hy
      obtain ⟨r, v, hrI, hvI, hr'eq⟩ :=
        zipWith_getElem?_inv (fun r v => r ++ [v]) df.rows _ i hr'
      rw [List.getElem?_map] at hvI
      obtain ⟨p, hp, hv⟩ := Option.map_eq_some'.mp hvI
      rw [List.getElem?_map] at hy
      obtain ⟨pp, hpp, hyv⟩ := Option.map_eq_some'.mp hy
      obtain ⟨hpp1, hpp2⟩ := zip_getElem?_inv hpp
      have hpeq : pp.1 = p := by
        rw [hp] at hpp1
        cases hpp1
        rfl
      have hrmem : r ∈ df.rows := by
        rcases List.getElem?_eq_some.mp hrI with ⟨hlt, hget⟩
        exact hget ▸ List.getElem_mem hlt
      have hrlen : r.length = df.cols.length := hwf r hrmem
      have hrlval : r.getD iRL Cell.null = Cell.num pp.2 := by
        have hcongr := congrArg (fun (l2 : List Cell) => l2[i]?) hlvals
        simp only [List.getElem?_map, hrI, hpp2, Option.map_some'] at hcongr
        exact Option.some.injEq _ _ ▸ hcongr
      rw [hr'eq, ← hv]
      rw [← hyv, hpeq]
      exact getStockStatus_eval df.cols r (p.1 - p.2) pp.2 (by
          have := colIdx_none_of_hasCol_false hnoAV
          exact this) hiRL hrlen hrlval
  have hno1SS : (setCol df "available_quantity" DType.numeric
      ((qs.zip rs).map (fun p => Cell.num (p.1 - p.2)))).hasCol "stock_status" = false := by
    rw [hasCol_setCol_append df _ _ _ _ hnoAV, hnoSS]
    rfl
  have hdf1wf : (setCol df "available_quantity" DType.numeric
      ((qs.zip rs).map (fun p => Cell.num (p.1 - p.2)))).WF :=
    WF_setCol_append df _ _ _ hnoAV hwf
  have hstlen1 : (((qs.zip rs).zip ls).map
      (fun p => Cell.str (stockStatusSpec (p.1.1 - p.1.2) p.2))).length =
      (setCol df "available_quantity" DType.numeric
        ((qs.zip rs).map (fun p => Cell.num (p.1 - p.2)))).rows.length := by
    rw [hdf1]
    simp only [List.length_zipWith, List.length_map, List.length_zip]
    omega
  have hidxAV : (setCol df "available_quantity" DType.numeric
      ((qs.zip rs).map (fun p => Cell.num (p.1 - p.2)))).colIdx "available_quantity" =
      some df.cols.length := by
    rw [hdf1]
    show colIdxAux "available_quantity"
      (df.cols ++ [⟨"available_quantity", DType.numeric⟩]) = _
    rw [colIdxAux_append_of_none _ (colIdx_none_of_hasCol_false hnoAV)]
    simp [colIdxAux]
  refine ⟨setCol (setCol df "available_quantity" DType.numeric
      ((qs.zip rs).map (fun p => Cell.num (p.1 - p.2)))) "stock_status" DType.obj
      (((qs.zip rs).zip ls).map
        (fun p => Cell.str (stockStatusSpec (p.1.1 - p.1.2) p.2))), ?_, ?_, ?_⟩
  · unfold transformInventory
    simp only [getColE_of_getCol hq, getColE_of_getCol hr, hsub, bind_ok_reduce, hstatus]
  · rw [getCol_setCol_other _ _ _ _ "available_quantity" hno1SS hdf1wf hstlen1 hidxAV]
    exact getCol_setCol_self df _ _ _ hnoAV hwf havlen
  · exact getCol_setCol_self _ _ _ _ hno1SS hdf1wf hstlen1

/-- Witness for C5: quantity_on_hand 50 and quantity_reserved 10 give
available_quantity 40, with stock_status In Stock at reorder level 30
and Low Stock at reorder level 45. -/
theorem C5_witness :
    (∃ T, transformInventory envAny inventory30 = Except.ok T ∧
      T.getCol "available_quantity" = some [Cell.num 40] ∧
      T.getCol "stock_status" = some [Cell.str "In Stock"]) ∧
    (∃ T, transformInventory envAny inventory45 = Except.ok T ∧
      T.getCol "stock_status" = some [Cell.str "Low Stock"]) := by
  constructor
  · obtain ⟨T, h1, h2, h3⟩ := C5_inventory_transform envAny inventory30 [50] [10] [30]
      (by intro r hr; simp [inventory30] at hr; subst hr; rfl)
      (by with_unfolding_all rfl) (by with_unfolding_all rfl)
      (by with_unfolding_all rfl) (by with_unfolding_all rfl) (by with_unfolding_all rfl)
    refine ⟨T, h1, ?_, ?_⟩
    · rw [h2]
      norm_num [List.zip, List.zipWith]
    · rw [h3]
      norm_num [List.zip, List.zipWith, stockStatusSpec]
  · obtain ⟨T, h1, _, h3⟩ := C5_inventory_transform envAny inventory45 [50] [10] [45]
      (by intro r hr; simp [inventory45] at hr; subst hr; rfl)
      (by with_unfolding_all rfl) (by with_unfolding_all rfl)
      (by with_unfolding_all rfl) (by with_unfolding_all rfl) (by with_unfolding_all rfl)
    refine ⟨T, h1, ?_⟩
    rw [h3]
    norm_num [List.zip, List.zipWith, stockStatusSpec]

/-- C4 (amended): the transform step never raises on a zero denominator —
a products frame with string-free price and cost columns transforms
successfully, as does an order_items frame with string-free quantity,
unit_price and discount_applied columns.  But the derived values follow the
float division rules: on a row with price 0 the profit margin is null only
when cost is also 0, and is a signed infinity otherwise; on a row with
line_total 0 the discount percentage is 0 exactly when discount_applied is
null or 0, and is a signed infinity otherwise. -/
theorem C4_division_by_zero_amended :
    (∀ (env : Env) (df : DFrame) (ps cs : List Cell),
      df.WF → df.hasCol "profit_margin" = false →
      df.getCol "price" = some ps → df.getCol "cost" = some cs →
      df.hasCol "product_name" = true →
      df.dtypeOf "product_name" = some DType.obj →
      (∀ x ∈ ps, x.isStr = false) → (∀ x ∈ cs, x.isStr = false) →
      ∃ T, transformProducts env df = Except.ok T) ∧
    (∀ (env : Env) (df T : DFrame) (ps cs : List Cell),
      df.WF → df.hasCol "profit_margin" = false →
      df.getCol "price" = some ps → df.getCol "cost" = some cs →
      transformProducts env df = Except.ok T →
      ∃ pm, T.getCol "profit_margin" = some pm ∧
        ∀ (i : Nat) (c : ℚ), ps[i]? = some (Cell.num 0) → cs[i]? = some (Cell.num c) →
          pm[i]? = some (if c = 0 then Cell.null
            else if 0 < c then Cell.neginf else Cell.inf)) ∧
    (∀ (env : Env) (df : DFrame) (qs us ds : List Cell),
      df.WF → df.hasCol "line_total" = false →
      df.hasCol "discount_percentage" = false →
      df.getCol "quantity" = some qs → df.getCol "unit_price" = some us →
      df.getCol "discount_applied" = some ds →
      (∀ x ∈ qs, x.isStr = false) → (∀ x ∈ us, x.isStr = false) →
      (∀ x ∈ ds, x.isStr = false) →
      ∃ T, transformOrderItems env df = Except.ok T) ∧
    (∀ (env : Env) (df T : DFrame) (qs us ds : List Cell),
      df.WF → df.hasCol "line_total" = false →
      df.hasCol "discount_percentage" = false →
      df.getCol "quantity" = some qs → df.getCol "unit_price" = some us →
      df.getCol "discount_applied" = some ds →
      transformOrderItems env df = Except.ok T →
      ∃ disc, T.getCol "discount_percentage" = some disc ∧
        ∀ (i : Nat) (q u : ℚ) (dc : Cell),
          qs[i]? = some (Cell.num q) → us[i]? = some (Cell.num u) → q * u = 0 →
          ds[i]? = some dc → (dc = Cell.null ∨ ∃ d, dc = Cell.num d) →
          disc[i]? = some (discSpec dc)) := by
  refine ⟨?_, ?_, ?_, ?_⟩
  · intro env df ps cs hwf hno hps hcs hpn hdt hnsp hnsc
    obtain ⟨diff, hdiff⟩ := zipCellsE_total ps cs (fun p hp => by
      obtain ⟨h1, h2⟩ := List.of_mem_zip hp
      obtain ⟨z, hz, _⟩ := cellSub_ok_notStr (hnsp _ h1) (hnsc _ h2)
      exact ⟨z, hz⟩)
    have hdiffns : ∀ z ∈ diff, z.isStr = false :=
      zipCellsE_forall_mem hdiff (fun p hp z hz => by
        obtain ⟨h1, h2⟩ := List.of_mem_zip hp
        obtain ⟨z2, hz2, hns⟩ := cellSub_ok_notStr (hnsp _ h1) (hnsc _ h2)
        rw [hz2] at hz
        cases hz
        exact hns)
    obtain ⟨ratio, hratio⟩ := zipCellsE_total diff ps (fun p hp => by
      obtain ⟨h1, h2⟩ := List.of_mem_zip hp
      obtain ⟨z, hz, _⟩ := cellDiv_ok_notStr (hdiffns _ h1) (hnsp _ h2)
      exact ⟨z, hz⟩)
    have hrationNS : ∀ z ∈ ratio, z.isStr = false :=
      zipCellsE_forall_mem hratio (fun p hp z hz => by
        obtain ⟨h1, h2⟩ := List.of_mem_zip hp
        obtain ⟨z2, hz2, hns⟩ := cellDiv_ok_notStr (hdiffns _ h1) (hnsp _ h2)
        rw [hz2] at hz
        cases hz
        exact hns)
    obtain ⟨margin, hmargin⟩ := mapM_total ratio (fun x hx => by
      obtain ⟨z, hz, _⟩ := cellMul_ok_notStr (hrationNS _ hx) (rfl : (Cell.num 100).isStr = false)
      exact ⟨z, hz⟩)
    have h1 : (setCol df "profit_margin" DType.numeric
        (margin.map round2Cell)).hasCol "product_name" = true := by
      rw [hasCol_setCol_append df _ _ _ _ hno, hpn]
      rfl
    have h2 : (setCol df "profit_margin" DType.numeric
        (margin.map round2Cell)).dtypeOf "product_name" = some DType.obj :=
      dtypeOf_setCol_append df _ _ _ _ hno hdt
    have hfin : transformProducts env df = Except.ok
        (mapColCells "product_name" (strAcc pyTitle)
          (setCol df "profit_margin" DType.numeric (margin.map round2Cell))) := by
      unfold transformProducts
      simp only [getColE_of_getCol hps, getColE_of_getCol hcs, hdiff, hratio, hmargin,
        bind_ok_reduce]
      exact strColReq_ok_of _ _ _ h1 h2
    exact ⟨_, hfin⟩
  · intro env df T ps cs hwf hno hps hcs hT
    obtain ⟨diff, ratio, margin, hdiff, hratio, hmargin, hpm⟩ :=
      prodMarginCells_aux env df ps cs hwf hno hps hcs hT
    refine ⟨margin.map round2Cell, hpm, ?_⟩
    intro i c hpi hci
    obtain ⟨d1, hd1, hdi⟩ := zipCellsE_ok_get hdiff hpi hci
    have hd1e : cellSub (Cell.num 0) (Cell.num c) = Except.ok (Cell.num (0 - c)) := rfl
    rw [hd1e] at hd1
    cases hd1
    obtain ⟨r1, hr1, hri⟩ := zipCellsE_ok_get hratio hdi hpi
    have hr1e : cellDiv (Cell.num (0 - c)) (Cell.num 0) = Except.ok
        (if 0 < 0 - c then Cell.inf else if 0 - c < 0 then Cell.neginf else Cell.null) := by
      simp [cellDiv]
    rw [hr1e] at hr1
    cases hr1
    obtain ⟨m1, hm1, hmi⟩ := mapM_ok_get hmargin hri
    have hout : (margin.map round2Cell)[i]? = some (round2Cell m1) := by
      rw [List.getElem?_map, hmi]
      rfl
    rw [hout]
    by_cases hc0 : c = 0
    · subst hc0
      rw [show (if (0:ℚ) < 0 - 0 then Cell.inf else if (0:ℚ) - 0 < 0 then Cell.neginf
          else Cell.null) = Cell.null by norm_num] at hm1
      rw [show cellMul Cell.null (Cell.num 100) = Except.ok Cell.null from rfl] at hm1
      cases hm1
      simp [round2Cell]
    · by_cases hcp : 0 < c
      · rw [show (if (0:ℚ) < 0 - c then Cell.inf else if (0:ℚ) - c < 0 then Cell.neginf
            else Cell.null) = Cell.neginf by
          rw [if_neg (by linarith), if_pos (by linarith)]] at hm1
        rw [show cellMul Cell.neginf (Cell.num 100) = Except.ok Cell.neginf by
          norm_num [cellMul]] at hm1
        cases hm1
        simp [round2Cell, hc0, hcp]
      · have hcn : c < 0 := lt_of_le_of_ne (not_lt.mp hcp) hc0
        rw [show (if (0:ℚ) < 0 - c then Cell.inf else if (0:ℚ) - c < 0 then Cell.neginf
            else Cell.null) = Cell.inf by rw [if_pos (by linarith)]] at hm1
        rw [show cellMul Cell.inf (Cell.num 100) = Except.ok Cell.inf by
          norm_num [cellMul]] at hm1
        cases hm1
        simp [round2Cell, hc0, hcp]
  · intro env df qs us ds hwf hnoLT hnoDP hq hu hd hnsq hnsu hnsd
    obtain ⟨lt, hlt⟩ := zipCellsE_total qs us (fun p hp => by
      obtain ⟨h1, h2⟩ := List.of_mem_zip hp
      obtain ⟨z, hz, _⟩ := cellMul_ok_notStr (hnsq _ h1) (hnsu _ h2)
      exact ⟨z, hz⟩)
    have hltns : ∀ z ∈ lt, z.isStr = false :=
      zipCellsE_forall_mem hlt (fun p hp z hz => by
        obtain ⟨h1, h2⟩ := List.of_mem_zip hp
        obtain ⟨z2, hz2, hns⟩ := cellMul_ok_notStr (hnsq _ h1) (hnsu _ h2)
        rw [hz2] at hz
        cases hz
        exact hns)
    obtain ⟨ratio, hratio⟩ := zipCellsE_total ds lt (fun p hp => by
      obtain ⟨h1, h2⟩ := List.of_mem_zip hp
      obtain ⟨z, hz, _⟩ := cellDiv_ok_notStr (hnsd _ h1) (hltns _ h2)
      exact ⟨z, hz⟩)
    have hrns : ∀ z ∈ ratio, z.isStr = false :=
      zipCellsE_forall_mem hratio (fun p hp z hz => by
        obtain ⟨h1, h2⟩ := List.of_mem_zip hp
        obtain ⟨z2, hz2, hns⟩ := cellDiv_ok_notStr (hnsd _ h1) (hltns _ h2)
        rw [hz2] at hz
        cases hz
        exact hns)
    obtain ⟨pct, hpct⟩ := mapM_total ratio (fun x hx => by
      obtain ⟨z, hz, _⟩ := cellMul_ok_notStr (hrns _ hx) (rfl : (Cell.num 100).isStr = false)
      exact ⟨z, hz⟩)
    have hltlen : lt.length = df.rows.length := by
      have l1 := zipCellsE_ok_length hlt
      have l2 := getCol_length hq
      have l3 := getCol_length hu
      omega
    obtain ⟨i0, hi0⟩ := colIdx_of_getCol hd
    have hdf1d : (setCol df "line_total" DType.numeric lt).getCol "discount_applied" = some ds := by
      rw [getCol_setCol_other df _ _ lt "discount_applied" hnoLT hwf hltlen hi0]
      exact hd
    have hdf1lt : (setCol df "line_total" DType.numeric lt).getCol "line_total" = some lt :=
      getCol_setCol_self df _ _ lt hnoLT hwf hltlen
    have hfin : transformOrderItems env df = Except.ok
        (setCol (setCol df "line_total" DType.numeric lt) "discount_percentage"
          DType.numeric ((pct.map fillna0Cell).map round2Cell)) := by
      unfold transformOrderItems
      simp only [getColE_of_getCol hq, getColE_of_getCol hu, hlt, bind_ok_reduce,
        getColE_of_getCol hdf1d, getColE_of_getCol hdf1lt, hratio, hpct]
    exact ⟨_, hfin⟩
  · intro env df T qs us ds hwf hnoLT hnoDP hq hu hd hT
    obtain ⟨lt, ratio, pct, hlt, hratio, hpct, hdisc⟩ :=
      orderItemsDisc_aux env df qs us ds hwf hnoLT hnoDP hq hu hd hT
    refine ⟨(pct.map fillna0Cell).map round2Cell, hdisc, ?_⟩
    intro i q u dc hqi hui hqu hdi hdc
    obtain ⟨l1, hl1, hlti⟩ := zipCellsE_ok_get hlt hqi hui
    have hl1e : cellMul (Cell.num q) (Cell.num u) = Except.ok (Cell.num (q * u)) := rfl
    rw [hl1e] at hl1
    cases hl1
    rw [hqu] at hlti
    obtain ⟨r1, hr1, hri⟩ := zipCellsE_ok_get hratio hdi hlti
    obtain ⟨m1, hm1, hmi⟩ := mapM_ok_get hpct hri
    have hout : ((pct.map fillna0Cell).map round2Cell)[i]? =
        some (round2Cell (fillna0Cell m1)) := by
      rw [List.getElem?_map, List.getElem?_map, hmi]
      rfl
    rw [hout]
    rcases hdc with hdc | ⟨d, hdc⟩
    · subst hdc
      rw [show cellDiv Cell.null (Cell.num 0) = Except.ok Cell.null from rfl] at hr1
      cases hr1
      rw [show cellMul Cell.null (Cell.num 100) = Except.ok Cell.null from rfl] at hm1
      cases hm1
      simp [fillna0Cell, round2Cell, discSpec, round2_zero]
    · subst hdc
      have hr1e : cellDiv (Cell.num d) (Cell.num 0) = Except.ok
          (if 0 < d then Cell.inf else if d < 0 then Cell.neginf else Cell.null) := by
        simp [cellDiv]
      rw [hr1e] at hr1
      cases hr1
      by_cases hd0 : d = 0
      · subst hd0
        rw [show (if (0:ℚ) < 0 then Cell.inf else if (0:ℚ) < 0 then Cell.neginf
            else Cell.null) = Cell.null by norm_num] at hm1
        rw [show cellMul Cell.null (Cell.num 100) = Except.ok Cell.null from rfl] at hm1
        cases hm1
        simp [fillna0Cell, round2Cell, discSpec, round2_zero]
      · by_cases hdp : 0 < d
        · rw [if_pos hdp] at hm1
          rw [show cellMul Cell.inf (Cell.num 100) = Except.ok Cell.inf by
            norm_num [cellMul]] at hm1
          cases hm1
          simp [fillna0Cell, round2Cell, discSpec, hd0, hdp]
        · have hdn : d < 0 := lt_of_le_of_ne (not_lt.mp hdp) hd0
          rw [if_neg hdp, if_pos hdn] at hm1
          rw [show cellMul Cell.neginf (Cell.num 100) = Except.ok Cell.neginf by
            norm_num [cellMul]] at hm1
          cases hm1
          simp [fillna0Cell, round2Cell, discSpec, hd0, hdp]

/-- Witness for C4: on a product row with price 0 and cost 5 the transform
succeeds and yields profit margin -inf; on an order item with quantity 0,
unit price 5 and discount 5 it succeeds and yields discount percentage
+inf. -/
theorem C4_witness :
    (∃ T, transformProducts envAny productsZeroPrice = Except.ok T ∧
      ∃ pm, T.getCol "profit_margin" = some pm ∧ pm[0]? = some Cell.neginf) ∧
    (∃ T, transformOrderItems envAny orderItemsZeroLine = Except.ok T ∧
      ∃ disc, T.getCol "discount_percentage" = some disc ∧
        disc[0]? = some Cell.inf) := by
  obtain ⟨hp1, hp2, ho1, ho2⟩ := C4_division_by_zero_amended
  have hwfp : productsZeroPrice.WF := by
    intro r hr
    simp [productsZeroPrice] at hr
    subst hr
    rfl
  have hwfo : orderItemsZeroLine.WF := by
    intro r hr
    simp [orderItemsZeroLine] at hr
    subst hr
    rfl
  constructor
  · obtain ⟨T, hT⟩ := hp1 envAny productsZeroPrice [Cell.num 0] [Cell.num 5] hwfp
      (by with_unfolding_all rfl) (by with_unfolding_all rfl) (by with_unfolding_all rfl)
      (by with_unfolding_all rfl) (by with_unfolding_all rfl)
      (by intro x hx; simp at hx; subst hx; rfl)
      (by intro x hx; simp at hx; subst hx; rfl)
    obtain ⟨pm, hpm, hval⟩ := hp2 envAny productsZeroPrice T [Cell.num 0] [Cell.num 5] hwfp
      (by with_unfolding_all rfl) (by with_unfolding_all rfl) (by with_unfolding_all rfl) hT
    refine ⟨T, hT, pm, hpm, ?_⟩
    have := hval 0 5 rfl rfl
    rw [this]
    norm_num
  · obtain ⟨T, hT⟩ := ho1 envAny orderItemsZeroLine [Cell.num 0] [Cell.num 5] [Cell.num 5]
      hwfo (by with_unfolding_all rfl) (by with_unfolding_all rfl)
      (by with_unfolding_all rfl) (by with_unfolding_all rfl) (by with_unfolding_all rfl)
      (by intro x hx; simp at hx; subst hx; rfl)
      (by intro x hx; simp at hx; subst hx; rfl)
      (by intro x hx; simp at hx; subst hx; rfl)
    obtain ⟨disc, hdisc, hval⟩ := ho2 envAny orderItemsZeroLine T [Cell.num 0] [Cell.num 5]
      [Cell.num 5] hwfo (by with_unfolding_all rfl) (by with_unfolding_all rfl)
      (by with_unfolding_all rfl) (by with_unfolding_all rfl) (by with_unfolding_all rfl) hT
    refine ⟨T, hT, disc, hdisc, ?_⟩
    have := hval 0 0 5 (Cell.num 5) rfl rfl (by norm_num) rfl (Or.inr ⟨5, rfl⟩)
    rw [this]
    simp [discSpec]

theorem charOfNat_toNat {n : Nat} (h : n < 55296) : (Char.ofNat n).toNat = n := by
  rw [Char.ofNat, dif_pos (Or.inl h)]
  simp [Char.ofNatAux, Char.toNat, UInt32.toNat, UInt32.ofNatCore]

theorem pyLowerChar_toNat (c : Char) (h : 65 ≤ c.toNat ∧ c.toNat ≤ 90) :
    (pyLowerChar c).toNat = c.toNat + 32 := by
  unfold pyLowerChar
  rw [if_pos h]
  exact charOfNat_toNat (by omega)

theorem pyLowerChar_eq_self (c : Char) (h : ¬(65 ≤ c.toNat ∧ c.toNat ≤ 90)) :
    pyLowerChar c = c := by
  unfold pyLowerChar
  rw [if_neg h]

theorem pyUpperChar_toNat (c : Char) (h : 97 ≤ c.toNat ∧ c.toNat ≤ 122) :
    (pyUpperChar c).toNat = c.toNat - 32 := by
  unfold pyUpperChar
  rw [if_pos h]
  exact charOfNat_toNat (by omega)

theorem pyUpperChar_eq_self (c : Char) (h : ¬(97 ≤ c.toNat ∧ c.toNat ≤ 122)) :
    pyUpperChar c = c := by
  unfold pyUpperChar
  rw [if_neg h]

theorem pyLowerChar_idem (c : Char) : pyLowerChar (pyLowerChar c) = pyLowerChar c := by
  by_cases h : 65 ≤ c.toNat ∧ c.toNat ≤ 90
  · refine pyLowerChar_eq_self _ ?_
    rw [pyLowerChar_toNat c h]
    omega
  · rw [pyLowerChar_eq_self c h, pyLowerChar_eq_self c h]

theorem pyUpperChar_idem (c : Char) : pyUpperChar (pyUpperChar c) = pyUpperChar c := by
  by_cases h : 97 ≤ c.toNat ∧ c.toNat ≤ 122
  · refine pyUpperChar_eq_self _ ?_
    rw [pyUpperChar_toNat c h]
    omega
  · rw [pyUpperChar_eq_self c h, pyUpperChar_eq_self c h]

theorem isWS_pyLowerChar (c : Char) : isWS (pyLowerChar c) = isWS c := by
  by_cases h : 65 ≤ c.toNat ∧ c.toNat ≤ 90
  · have h2 := pyLowerChar_toNat c h
    have hL : isWS (pyLowerChar c) = false := by
      unfold isWS
      rw [h2]
      simp only [Bool.or_eq_false_iff, decide_eq_false_iff_not]
      omega
    have hR : isWS c = false := by
      unfold isWS
      simp only [Bool.or_eq_false_iff, decide_eq_false_iff_not]
      omega
    rw [hL, hR]
  · rw [pyLowerChar_eq_self c h]

theorem isWS_pyUpperChar (c : Char) : isWS (pyUpperChar c) = isWS c := by
  by_cases h : 97 ≤ c.toNat ∧ c.toNat ≤ 122
  · have h2 := pyUpperChar_toNat c h
    have hL : isWS (pyUpperChar c) = false := by
      unfold isWS
      rw [h2]
      simp only [Bool.or_eq_false_iff, decide_eq_false_iff_not]
      omega
    have hR : isWS c = false := by
      unfold isWS
      simp only [Bool.or_eq_false_iff, decide_eq_false_iff_not]
      omega
    rw [hL, hR]
  · rw [pyUpperChar_eq_self c h]

theorem isAlphaChar_pyLowerChar (c : Char) : isAlphaChar (pyLowerChar c) = isAlphaChar c := by
  by_cases h : 65 ≤ c.toNat ∧ c.toNat ≤ 90
  · have h2 := pyLowerChar_toNat c h
    have hL : isAlphaChar (pyLowerChar c) = true := by
      unfold isAlphaChar
      rw [h2]
      simp only [Bool.or_eq_true, decide_eq_true_eq]
      omega
    have hR : isAlphaChar c = true := by
      unfold isAlphaChar
      simp only [Bool.or_eq_true, decide_eq_true_eq]
      omega
    rw [hL, hR]
  · rw [pyLowerChar_eq_self c h]

theorem isAlphaChar_pyUpperChar (c : Char) : isAlphaChar (pyUpperChar c) = isAlphaChar c := by
  by_cases h : 97 ≤ c.toNat ∧ c.toNat ≤ 122
  · have h2 := pyUpperChar_toNat c h
    have hL : isAlphaChar (pyUpperChar c) = true := by
      unfold isAlphaChar
      rw [h2]
      simp only [Bool.or_eq_true, decide_eq_true_eq]
      omega
    have hR : isAlphaChar c = true := by
      unfold isAlphaChar
      simp only [Bool.or_eq_true, decide_eq_true_eq]
      omega
    rw [hL, hR]
  · rw [pyUpperChar_eq_self c h]

theorem isWS_of_isDigitChar {c : Char} (h : isDigitChar c = true) : isWS c = false := by
  unfold isDigitChar at h
  simp only [decide_eq_true_eq] at h
  unfold isWS
  simp only [Bool.or_eq_false_iff, decide_eq_false_iff_not]
  omega

theorem dropWhile_head?_false {p : Char → Bool} :
    ∀ (l : List Char) (c : Char), (l.dropWhile p).head? = some c → p c = false := by
  intro l
  induction l with
  | nil => intro c hc; cases hc
  | cons a l ih =>
    intro c hc
    rw [List.dropWhile_cons] at hc
    by_cases hp : p a = true
    · rw [if_pos hp] at hc
      exact ih c hc
    · rw [if_neg hp] at hc
      cases hc
      exact Bool.not_eq_true _ |>.mp hp

theorem dropWhile_eq_self_of_head {p : Char → Bool} (l : List Char)
    (h : ∀ c, l.head? = some c → p c = false) : l.dropWhile p = l := by
  cases l with
  | nil => rfl
  | cons a l =>
    rw [List.dropWhile_cons, if_neg]
    simp [h a rfl]

theorem dropWhile_getLast? {p : Char → Bool} :
    ∀ (l : List Char), l.dropWhile p = [] ∨ (l.dropWhile p).getLast? = l.getLast? := by
  intro l
  induction l with
  | nil => exact Or.inl rfl
  | cons a l ih =>
    rw [List.dropWhile_cons]
    by_cases hp : p a = true
    · rw [if_pos hp]
      by_cases hdl : l.dropWhile p = []
      · exact Or.inl hdl
      · right
        rcases ih with h | h
        · exact absurd h hdl
        · rw [h]
          cases l with
          | nil => simp at hdl
          | cons b l2 => rw [List.getLast?_cons_cons]
    · rw [if_neg hp]
      exact Or.inr rfl

theorem stripChars_head? (l : List Char) :
    ∀ c, (stripChars l).head? = some c → isWS c = false := by
  intro c hc
  unfold stripChars at hc
  rw [List.head?_reverse] at hc
  rcases dropWhile_getLast? ((l.dropWhile isWS).reverse) with h | h
  · rw [h] at hc
    cases hc
  · rw [h, List.getLast?_reverse] at hc
    exact dropWhile_head?_false l c hc

theorem stripChars_getLast? (l : List Char) :
    ∀ c, (stripChars l).getLast? = some c → isWS c = false := by
  intro c hc
  unfold stripChars at hc
  rw [List.getLast?_reverse] at hc
  exact dropWhile_head?_false _ c hc

theorem stripChars_eq_self {l : List Char}
    (h1 : ∀ c, l.head? = some c → isWS c = false)
    (h2 : ∀ c, l.getLast? = some c → isWS c = false) :
    stripChars l = l := by
  unfold stripChars
  rw [dropWhile_eq_self_of_head l h1]
  rw [dropWhile_eq_self_of_head l.reverse (fun c hc => h2 c (by rwa [List.head?_reverse] at hc))]
  exact List.reverse_reverse l

theorem stripChars_idem (l : List Char) : stripChars (stripChars l) = stripChars l :=
  stripChars_eq_self (stripChars_head? l) (stripChars_getLast? l)

theorem titleChars_cons (prev : Bool) (c : Char) (cs : List Char) :
    titleChars prev (c :: cs) =
      titleMap prev c :: titleChars (isAlphaChar (titleMap prev c)) cs := rfl

theorem titleMap_alpha_true (c : Char) (ha : isAlphaChar c = true) :
    titleMap true c = pyLowerChar c := by
  unfold titleMap
  rw [if_pos ha, if_pos rfl]

theorem titleMap_alpha_false (c : Char) (ha : isAlphaChar c = true) :
    titleMap false c = pyUpperChar c := by
  unfold titleMap
  rw [if_pos ha, if_neg (by simp)]

theorem titleMap_notalpha (prev : Bool) (c : Char) (ha : ¬isAlphaChar c = true) :
    titleMap prev c = c := by
  unfold titleMap
  rw [if_neg ha]

theorem titleMap_idem (prev : Bool) (c : Char) :
    titleMap prev (titleMap prev c) = titleMap prev c := by
  by_cases ha : isAlphaChar c = true
  · cases prev with
    | true =>
      rw [titleMap_alpha_true c ha,
        titleMap_alpha_true _ (by rw [isAlphaChar_pyLowerChar]; exact ha), pyLowerChar_idem]
    | false =>
      rw [titleMap_alpha_false c ha,
        titleMap_alpha_false _ (by rw [isAlphaChar_pyUpperChar]; exact ha), pyUpperChar_idem]
  · rw [titleMap_notalpha _ _ ha, titleMap_notalpha _ _ ha]

theorem isAlphaChar_titleMap (prev : Bool) (c : Char) :
    isAlphaChar (titleMap prev c) = isAlphaChar c := by
  by_cases ha : isAlphaChar c = true
  · cases prev with
    | true => rw [titleMap_alpha_true c ha, isAlphaChar_pyLowerChar]
    | false => rw [titleMap_alpha_false c ha, isAlphaChar_pyUpperChar]
  · rw [titleMap_notalpha _ _ ha]

theorem isWS_titleMap (prev : Bool) (c : Char) : isWS (titleMap prev c) = isWS c := by
  by_cases ha : isAlphaChar c = true
  · cases prev with
    | true => rw [titleMap_alpha_true c ha, isWS_pyLowerChar]
    | false => rw [titleMap_alpha_false c ha, isWS_pyUpperChar]
  · rw [titleMap_notalpha _ _ ha]

theorem titleChars_idem :
    ∀ (l : List Char) (prev : Bool), titleChars prev (titleChars prev l) = titleChars prev l := by
  intro l
  induction l with
  | nil => intro prev; rfl
  | cons c cs ih =>
    intro prev
    rw [titleChars_cons, titleChars_cons, titleMap_idem]
    exact congrArg _ (ih _)

theorem titleChars_head?_isWS (prev : Bool) (l : List Char) :
    (titleChars prev l).head?.map isWS = l.head?.map isWS := by
  cases l with
  | nil => rfl
  | cons c cs =>
    rw [titleChars_cons]
    simp [isWS_titleMap]

theorem titleChars_getLast?_isWS :
    ∀ (l : List Char) (prev : Bool),
      (titleChars prev l).getLast?.map isWS = l.getLast?.map isWS := by
  intro l
  induction l with
  | nil => intro prev; rfl
  | cons c cs ih =>
    intro prev
    rw [titleChars_cons]
    cases cs with
    | nil => simp [titleChars, isWS_titleMap]
    | cons d cs2 =>
      rw [titleChars_cons, List.getLast?_cons_cons, ← titleChars_cons,
        List.getLast?_cons_cons]
      exact ih _

theorem getLast?_map {α β : Type} (f : α → β) (l : List α) :
    (l.map f).getLast? = l.getLast?.map f := by
  rw [← List.head?_reverse, ← List.map_reverse, List.head?_map, List.head?_reverse]

theorem pyLower_idem (s : String) : pyLower (pyLower s) = pyLower s := by
  unfold pyLower
  refine congrArg String.mk ?_
  show (s.data.map pyLowerChar).map pyLowerChar = s.data.map pyLowerChar
  rw [List.map_map]
  exact List.map_congr_left (fun a _ => pyLowerChar_idem a)

theorem keepDigits_idem (s : String) : keepDigits (keepDigits s) = keepDigits s := by
  unfold keepDigits
  refine congrArg String.mk ?_
  show (s.data.filter isDigitChar).filter isDigitChar = s.data.filter isDigitChar
  exact List.filter_eq_self.mpr (fun a ha => List.of_mem_filter ha)

theorem pyTitle_idem (s : String) : pyTitle (pyTitle s) = pyTitle s := by
  unfold pyTitle
  exact congrArg String.mk (titleChars_idem s.data false)

theorem strip_pyLower {s : String} (h : stripChars s.data = s.data) :
    stripChars (pyLower s).data = (pyLower s).data := by
  have hh : ∀ c, s.data.head? = some c → isWS c = false := fun c hc =>
    stripChars_head? s.data c (by rw [h]; exact hc)
  have hg : ∀ c, s.data.getLast? = some c → isWS c = false := fun c hc =>
    stripChars_getLast? s.data c (by rw [h]; exact hc)
  refine stripChars_eq_self ?_ ?_
  · intro c hc
    show isWS c = false
    rw [show (pyLower s).data = s.data.map pyLowerChar from rfl, List.head?_map] at hc
    rcases Option.map_eq_some'.mp hc with ⟨a, ha, hfa⟩
    rw [← hfa, isWS_pyLowerChar]
    exact hh a ha
  · intro c hc
    rw [show (pyLower s).data = s.data.map pyLowerChar from rfl, getLast?_map] at hc
    rcases Option.map_eq_some'.mp hc with ⟨a, ha, hfa⟩
    rw [← hfa, isWS_pyLowerChar]
    exact hg a ha

theorem mem_of_head? {α : Type} {l : List α} {c : α} (h : l.head? = some c) : c ∈ l := by
  cases l with
  | nil => cases h
  | cons a t =>
    cases h
    exact List.mem_cons_self _ _

theorem mem_of_getLast? {α : Type} {l : List α} {c : α} (h : l.getLast? = some c) :
    c ∈ l := by
  rw [← List.head?_reverse] at h
  exact List.mem_reverse.mp (mem_of_head? h)

theorem strip_keepDigits (s : String) :
    stripChars (keepDigits s).data = (keepDigits s).data := by
  refine stripChars_eq_self ?_ ?_
  · intro c hc
    exact isWS_of_isDigitChar (List.of_mem_filter (mem_of_head? hc))
  · intro c hc
    exact isWS_of_isDigitChar (List.of_mem_filter (mem_of_getLast? hc))

theorem strip_pyTitle {s : String} (h : stripChars s.data = s.data) :
    stripChars (pyTitle s).data = (pyTitle s).data := by
  have hh : ∀ c, s.data.head? = some c → isWS c = false := fun c hc =>
    stripChars_head? s.data c (by rw [h]; exact hc)
  have hg : ∀ c, s.data.getLast? = some c → isWS c = false := fun c hc =>
    stripChars_getLast? s.data c (by rw [h]; exact hc)
  refine stripChars_eq_self ?_ ?_
  · intro c hc
    have hmap := titleChars_head?_isWS false s.data
    rw [show (pyTitle s).data = titleChars false s.data from rfl] at hc
    rw [hc] at hmap
    cases hd : s.data.head? with
    | none => rw [hd] at hmap; cases hmap
    | some a =>
      rw [hd] at hmap
      simp only [Option.map_some'] at hmap
      rw [Option.some.inj hmap]
      exact hh a hd
  · intro c hc
    have hmap := titleChars_getLast?_isWS s.data false
    rw [show (pyTitle s).data = titleChars false s.data from rfl] at hc
    rw [hc] at hmap
    cases hd : s.data.getLast? with
    | none => rw [hd] at hmap; cases hmap
    | some a =>
      rw [hd] at hmap
      simp only [Option.map_some'] at hmap
      rw [Option.some.inj hmap]
      exact hg a hd

theorem set_getD_self : ∀ (r : List Cell) (i : Nat), r.set i (r.getD i Cell.null) = r := by
  intro r
  induction r with
  | nil => intro i; rfl
  | cons a r ih =>
    intro i
    cases i with
    | zero => rfl
    | succ n =>
      show a :: r.set n (r.getD n Cell.null) = a :: r
      rw [ih n]

theorem getD_set_self : ∀ (r : List Cell) (i : Nat) (v : Cell), i < r.length →
    (r.set i v).getD i Cell.null = v := by
  intro r
  induction r with
  | nil => intro i v h; cases h
  | cons a r ih =>
    intro i v h
    cases i with
    | zero => rfl
    | succ n =>
      show (r.set n v).getD n Cell.null = v
      exact ih n v (by simpa using h)

theorem set_beyond : ∀ (r : List Cell) (i : Nat) (v : Cell), r.length ≤ i →
    r.set i v = r := by
  intro r
  induction r with
  | nil => intro i v _; cases i <;> rfl
  | cons a r ih =>
    intro i v h
    cases i with
    | zero => cases h
    | succ n =>
      show a :: r.set n v = a :: r
      rw [ih n v (by simpa using h)]

theorem map_eq_self_of {α : Type} (l : List α) (f : α → α) (h : ∀ x ∈ l, f x = x) :
    l.map f = l := by
  induction l with
  | nil => rfl
  | cons a l ih =>
    rw [List.map_cons, h a (List.mem_cons_self _ _), ih (fun x hx => h x (List.mem_cons_of_mem a hx))]

theorem map_eq_self_mem {α : Type} : ∀ (l : List α) (f : α → α), l.map f = l →
    ∀ x ∈ l, f x = x := by
  intro l
  induction l with
  | nil => intro f _ x hx; cases hx
  | cons a l ih =>
    intro f h x hx
    rw [List.map_cons] at h
    injection h with h1 h2
    cases hx with
    | head => exact h1
    | tail _ hx => exact ih f h2 x hx

theorem mapMG_ok_length {α β : Type} {f : α → Except String β} :
    ∀ {xs : List α} {ys : List β}, xs.mapM f = Except.ok ys → ys.length = xs.length := by
  intro xs
  induction xs with
  | nil => intro ys h; cases h; rfl
  | cons a xs ih =>
    intro ys h
    rw [List.mapM_cons] at h
    rcases bindOkInv h with ⟨b, _, h2⟩
    rcases bindOkInv h2 with ⟨bs, hbs, h3⟩
    cases h3
    simp [ih hbs]

theorem mapMG_ok_get2 {α β : Type} {f : α → Except String β} :
    ∀ {xs : List α} {ys : List β}, xs.mapM f = Except.ok ys →
      ∀ {k : Nat} {y : β}, ys[k]? = some y → ∃ x, xs[k]? = some x ∧ f x = Except.ok y := by
  intro xs
  induction xs with
  | nil => intro ys h k y hy; cases h; cases hy
  | cons a xs ih =>
    intro ys h k y hy
    rw [List.mapM_cons] at h
    rcases bindOkInv h with ⟨b, hb, h2⟩
    rcases bindOkInv h2 with ⟨bs, hbs, h3⟩
    cases h3
    cases k with
    | zero =>
      rw [List.getElem?_cons_zero] at hy
      cases hy
      exact ⟨a, List.getElem?_cons_zero, hb⟩
    | succ n =>
      rw [List.getElem?_cons_succ] at hy
      rcases ih hbs hy with ⟨x, hx, hfx⟩
      exact ⟨x, by rw [List.getElem?_cons_succ]; exact hx, hfx⟩

theorem mapMG_forall_mem {α β : Type} {f : α → Except String β} :
    ∀ {xs : List α} {ys : List β}, xs.mapM f = Except.ok ys →
      ∀ y ∈ ys, ∃ x ∈ xs, f x = Except.ok y := by
  intro xs
  induction xs with
  | nil => intro ys h y hy; cases h; cases hy
  | cons a xs ih =>
    intro ys h y hy
    rw [List.mapM_cons] at h
    rcases bindOkInv h with ⟨b, hb, h2⟩
    rcases bindOkInv h2 with ⟨bs, hbs, h3⟩
    cases h3
    cases hy with
    | head => exact ⟨a, List.mem_cons_self _ _, hb⟩
    | tail _ hy =>
      rcases ih hbs y hy with ⟨x, hx, hfx⟩
      exact ⟨x, List.mem_cons_of_mem a hx, hfx⟩

theorem zipWith_getElem?_of {α β γ : Type} (g : α → β → γ) :
    ∀ (as : List α) (bs : List β) (i : Nat) {a : α} {b : β},
      as[i]? = some a → bs[i]? = some b → (List.zipWith g as bs)[i]? = some (g a b) := by
  intro as
  induction as with
  | nil => intro bs i a b ha _; cases ha
  | cons x as ih =>
    intro bs i a b ha hb
    cases bs with
    | nil => cases hb
    | cons y bs =>
      cases i with
      | zero =>
        rw [List.getElem?_cons_zero] at ha hb
        cases ha
        cases hb
        rw [List.zipWith_cons_cons, List.getElem?_cons_zero]
      | succ n =>
        rw [List.getElem?_cons_succ] at ha hb
        rw [List.zipWith_cons_cons, List.getElem?_cons_succ]
        exact ih bs n ha hb

theorem mem_zip_getElem? {α β : Type} {as : List α} {bs : List β} {p : α × β}
    (h : p ∈ as.zip bs) : ∃ j : Nat, as[j]? = some p.1 ∧ bs[j]? = some p.2 := by
  rcases List.mem_iff_getElem?.mp h with ⟨j, hj⟩
  rcases zip_getElem?_inv hj with ⟨h1, h2⟩
  exact ⟨j, h1, h2⟩

theorem getElem?_mem_zip {α β : Type} {as : List α} {bs : List β} {j : Nat} {a : α} {b : β}
    (ha : as[j]? = some a) (hb : bs[j]? = some b) : (a, b) ∈ as.zip bs :=
  List.mem_iff_getElem?.mpr ⟨j, zipWith_getElem?_of Prod.mk as bs j ha hb⟩

theorem zipWith_eq_right {α β : Type} (g : α → β → β) :
    ∀ (as : List α) (bs : List β), bs.length ≤ as.length →
      (∀ (j : Nat) (a : α) (b : β), as[j]? = some a → bs[j]? = some b → g a b = b) →
      List.zipWith g as bs = bs := by
  intro as
  induction as with
  | nil =>
    intro bs h _
    cases bs with
    | nil => rfl
    | cons b bs => cases h
  | cons a as ih =>
    intro bs h hp
    cases bs with
    | nil => rfl
    | cons b bs =>
      rw [List.zipWith_cons_cons,
        hp 0 a b List.getElem?_cons_zero List.getElem?_cons_zero,
        ih bs (by simpa using h) (fun (j : Nat) (x : α) (y : β) hx hy =>
          hp (j + 1) x y (by rw [List.getElem?_cons_succ]; exact hx)
            (by rw [List.getElem?_cons_succ]; exact hy))]

theorem mapColCells_cols (name : String) (g : Cell → Cell) (df : DFrame) :
    (mapColCells name g df).cols = df.cols := by
  unfold mapColCells
  rcases hc : df.colIdx name with _ | i <;> rfl

theorem hasCol_eq_of_cols {df df2 : DFrame} (h : df2.cols = df.cols) (name : String) :
    df2.hasCol name = df.hasCol name := by
  unfold DFrame.hasCol
  rw [h]

theorem dtypeOf_eq_of_cols {df df2 : DFrame} (h : df2.cols = df.cols) (name : String) :
    df2.dtypeOf name = df.dtypeOf name := by
  unfold DFrame.dtypeOf
  rw [h]

theorem colIdx_eq_of_cols {df df2 : DFrame} (h : df2.cols = df.cols) (name : String) :
    df2.colIdx name = df.colIdx name := by
  unfold DFrame.colIdx
  rw [h]

theorem mapColCellsE_cols {name : String} {f : Cell → Except String Cell} {df df2 : DFrame}
    (h : mapColCellsE name f df = Except.ok df2) : df2.cols = df.cols := by
  unfold mapColCellsE at h
  rcases hc : df.colIdx name with _ | i <;> rw [hc] at h
  · cases h
    rfl
  · rcases bindOkInv h with ⟨rows2, _, h2⟩
    cases h2
    rfl

theorem strCol_cols {name : String} {f : String → String} {df df2 : DFrame}
    (h : strCol name f df = Except.ok df2) : df2.cols = df.cols := by
  unfold strCol at h
  split_ifs at h
  · cases h
    exact mapColCells_cols _ _ _
  · cases h
    rfl

theorem absCol_cols {name : String} {df df2 : DFrame}
    (h : absCol name df = Except.ok df2) : df2.cols = df.cols := by
  unfold absCol at h
  split_ifs at h with h1
  · rcases hd : df.dtypeOf name with _ | dt <;> rw [hd] at h
    · exact mapColCellsE_cols h
    · cases dt
      · exact mapColCellsE_cols h
      · exact mapColCellsE_cols h
  · cases h
    rfl

theorem mapColCells_some {name : String} {g : Cell → Cell} {df : DFrame} {i : Nat}
    (hc : df.colIdx name = some i) :
    mapColCells name g df =
      { df with rows := df.rows.map (fun r => r.set i (g (r.getD i Cell.null))) } := by
  unfold mapColCells
  rw [hc]

theorem mapColCells_fix_rows {name : String} {g : Cell → Cell} {df : DFrame} {i : Nat}
    (hc : df.colIdx name = some i)
    (h : ∀ r ∈ df.rows, r.set i (g (r.getD i Cell.null)) = r) :
    mapColCells name g df = df := by
  rw [mapColCells_some hc, map_eq_self_of df.rows _ h]

theorem mapColCells_fix_pointwise {name : String} {g : Cell → Cell} {df : DFrame} {i : Nat}
    (hc : df.colIdx name = some i) (h : mapColCells name g df = df) :
    ∀ r ∈ df.rows, r.set i (g (r.getD i Cell.null)) = r := by
  rw [mapColCells_some hc] at h
  have h2 := congrArg DFrame.rows h
  exact map_eq_self_mem _ _ h2

theorem row_fix_set {i1 i2 : Nat} {g1 : Cell → Cell} {r : List Cell} {v : Cell}
    (hne : i1 ≠ i2) (hfix : r.set i1 (g1 (r.getD i1 Cell.null)) = r) :
    (r.set i2 v).set i1 (g1 ((r.set i2 v).getD i1 Cell.null)) = r.set i2 v := by
  rw [getD_set_ne r i2 i1 v Cell.null (Ne.symm hne),
    List.set_comm _ _ _ (Ne.symm hne), hfix]

theorem mapColCells_idem_rows {i : Nat} {g : Cell → Cell} (hg : ∀ c, g (g c) = g c)
    (r : List Cell) :
    (r.set i (g (r.getD i Cell.null))).set i
        (g ((r.set i (g (r.getD i Cell.null))).getD i Cell.null)) =
      r.set i (g (r.getD i Cell.null)) := by
  by_cases hi : i < r.length
  · rw [getD_set_self r i _ hi, List.set_set, hg]
  · have hb : ∀ v, r.set i v = r := fun v => set_beyond r i v (le_of_not_lt hi)
    simp only [hb]

theorem mapColCells_idem {name : String} {g : Cell → Cell} (df : DFrame)
    (hg : ∀ c, g (g c) = g c) :
    mapColCells name g (mapColCells name g df) = mapColCells name g df := by
  rcases hc : df.colIdx name with _ | i
  · have hin : mapColCells name g df = df := by
      unfold mapColCells
      rw [hc]
    rw [hin, hin]
  · have hc2 : (mapColCells name g df).colIdx name = some i := by
      rw [colIdx_eq_of_cols (mapColCells_cols name g df) name]
      exact hc
    refine mapColCells_fix_rows hc2 ?_
    intro r' hr'
    rw [show (mapColCells name g df).rows =
        df.rows.map (fun r => r.set i (g (r.getD i Cell.null))) from
      congrArg DFrame.rows (mapColCells_some hc)] at hr'
    rcases List.mem_map.mp hr' with ⟨r, _, rfl⟩
    exact mapColCells_idem_rows hg r

theorem strAcc_idem {f : String → String} (hf : ∀ s, f (f s) = f s) :
    ∀ c, strAcc f (strAcc f c) = strAcc f c := by
  intro c
  cases c <;> simp [strAcc, hf]

theorem colIdx_ne_of_names {df : DFrame} {n1 n2 : String} {i1 i2 : Nat}
    (h1 : df.colIdx n1 = some i1) (h2 : df.colIdx n2 = some i2) (hne : n1 ≠ n2) :
    i1 ≠ i2 := by
  intro he
  subst he
  rcases colIdxAux_names h1 with ⟨c1, hc1, hn1⟩
  rcases colIdxAux_names h2 with ⟨c2, hc2, hn2⟩
  rw [hc1] at hc2
  cases hc2
  exact hne (by rw [← hn1, ← hn2])

theorem strCol_fix_self {name : String} {f : String → String} {df df2 : DFrame}
    (hf : ∀ s, f (f s) = f s)
    (h : strCol name f df = Except.ok df2) : strCol name f df2 = Except.ok df2 := by
  have hcols := strCol_cols h
  unfold strCol at h ⊢
  rw [hasCol_eq_of_cols hcols name, dtypeOf_eq_of_cols hcols name]
  split_ifs at h with h1 h2
  · cases h
    rw [if_pos h1, if_pos h2]
    exact congrArg Except.ok (mapColCells_idem df (strAcc_idem hf))
  · cases h
    rw [if_neg h1]

theorem strCol_fix_through_strCol {n1 n2 : String} {f1 f2 : String → String}
    {df df2 : DFrame} (hne : n1 ≠ n2)
    (hfix : strCol n1 f1 df = Except.ok df)
    (h2 : strCol n2 f2 df = Except.ok df2) :
    strCol n1 f1 df2 = Except.ok df2 := by
  unfold strCol at h2
  split_ifs at h2 with hb2 hd2
  · cases h2
    have hcols2 : (mapColCells n2 (strAcc f2) df).cols = df.cols := mapColCells_cols _ _ _
    obtain ⟨i2, hi2⟩ := colIdxAux_some_of_any hb2
    unfold strCol at hfix ⊢
    rw [hasCol_eq_of_cols hcols2 n1, dtypeOf_eq_of_cols hcols2 n1]
    split_ifs at hfix with hb1 hd1
    · rw [if_pos hb1, if_pos hd1]
      injection hfix with hXfix
      obtain ⟨i1, hi1⟩ := colIdxAux_some_of_any hb1
      have hne12 : i1 ≠ i2 := colIdx_ne_of_names hi1 hi2 hne
      refine congrArg Except.ok ?_
      refine mapColCells_fix_rows
        (show (mapColCells n2 (strAcc f2) df).colIdx n1 = some i1 by
          rw [colIdx_eq_of_cols hcols2 n1]; exact hi1) ?_
      intro r' hr'
      rw [show (mapColCells n2 (strAcc f2) df).rows =
          df.rows.map (fun r => r.set i2 (strAcc f2 (r.getD i2 Cell.null))) from
        congrArg DFrame.rows (mapColCells_some hi2)] at hr'
      rcases List.mem_map.mp hr' with ⟨r, hr, rfl⟩
      exact row_fix_set hne12 (mapColCells_fix_pointwise hi1 hXfix r hr)
    · rw [if_neg hb1]
  · cases h2
    exact hfix

theorem updateRowE_ok {i : Nat} {f : Cell → Except String Cell} {r r2 : List Cell}
    (h : updateRowE i f r = Except.ok r2) :
    ∃ v, f (r.getD i Cell.null) = Except.ok v ∧ r2 = r.set i v := by
  unfold updateRowE at h
  rcases bindOkInv h with ⟨v, hv, h2⟩
  cases h2
  exact ⟨v, hv, rfl⟩

theorem updateRowE_fix {i : Nat} {f : Cell → Except String Cell} {r : List Cell} {v : Cell}
    (hf : ∀ c c', f c = Except.ok c' → f c' = Except.ok c')
    (hv : f (r.getD i Cell.null) = Except.ok v) :
    updateRowE i f (r.set i v) = Except.ok (r.set i v) := by
  unfold updateRowE
  by_cases hi : i < r.length
  · rw [getD_set_self r i v hi, hf _ _ hv]
    show Except.ok ((r.set i v).set i v) = _
    rw [List.set_set]
  · have hb := set_beyond r i v (le_of_not_lt hi)
    rw [hb, hv]
    show Except.ok (r.set i v) = _
    rw [hb]

theorem mapColCellsE_some {name : String} {f : Cell → Except String Cell} {df : DFrame}
    {i : Nat} (hc : df.colIdx name = some i) :
    mapColCellsE name f df = (df.rows.mapM (updateRowE i f) >>= fun rows =>
      Except.ok { df with rows := rows }) := by
  unfold mapColCellsE
  rw [hc]

theorem mapColCellsE_none {name : String} {f : Cell → Except String Cell} {df : DFrame}
    (hc : df.colIdx name = none) : mapColCellsE name f df = Except.ok df := by
  unfold mapColCellsE
  rw [hc]

theorem mapColCellsE_fix_self {name : String} {f : Cell → Except String Cell}
    {df df2 : DFrame}
    (hf : ∀ c c', f c = Except.ok c' → f c' = Except.ok c')
    (h : mapColCellsE name f df = Except.ok df2) :
    mapColCellsE name f df2 = Except.ok df2 := by
  rcases hc : df.colIdx name with _ | i
  · rw [mapColCellsE_none hc] at h
    cases h
    exact mapColCellsE_none hc
  · rw [mapColCellsE_some hc] at h
    rcases bindOkInv h with ⟨rows2, hrows2, h2⟩
    cases h2
    rw [mapColCellsE_some
      (show ({ df with rows := rows2 } : DFrame).colIdx name = some i from hc)]
    have hr2 : rows2.mapM (updateRowE i f) = Except.ok rows2 := by
      refine mapM_pointwise _ _ _ rfl ?_
      intro k x y hx hy
      rw [hx] at hy
      cases hy
      rcases mapMG_ok_get2 hrows2 hx with ⟨r, _, hupd⟩
      rcases updateRowE_ok hupd with ⟨v, hv, rfl⟩
      exact updateRowE_fix hf hv
    show (rows2.mapM (updateRowE i f) >>= fun rows =>
      Except.ok { ({ df with rows := rows2 } : DFrame) with rows := rows }) = _
    rw [hr2, bind_ok_reduce]

theorem cellAbsNum_fix : ∀ c c', cellAbsNum c = Except.ok c' →
    cellAbsNum c' = Except.ok c' := by
  intro c c' h
  cases c with
  | null => cases h; rfl
  | num q => cases h; simp [cellAbsNum, abs_abs]
  | inf => cases h; rfl
  | neginf => cases h; rfl
  | str s => cases h

theorem cellAbsObj_fix : ∀ c c', cellAbsObj c = Except.ok c' →
    cellAbsObj c' = Except.ok c' := by
  intro c c' h
  cases c with
  | null => cases h
  | num q => cases h; simp [cellAbsObj, abs_abs]
  | inf => cases h; rfl
  | neginf => cases h; rfl
  | str s => cases h

theorem absCol_fix_self {name : String} {df df2 : DFrame}
    (h : absCol name df = Except.ok df2) : absCol name df2 = Except.ok df2 := by
  have hcols := absCol_cols h
  unfold absCol at h ⊢
  rw [hasCol_eq_of_cols hcols name, dtypeOf_eq_of_cols hcols name]
  by_cases h1 : df.hasCol name = true
  · rw [if_pos h1] at h ⊢
    rcases hd : df.dtypeOf name with _ | dt
    · rw [hd] at h
      exact mapColCellsE_fix_self cellAbsNum_fix h
    · cases dt
      · rw [hd] at h
        exact mapColCellsE_fix_self cellAbsObj_fix h
      · rw [hd] at h
        exact mapColCellsE_fix_self cellAbsNum_fix h
  · rw [if_neg h1] at h ⊢

theorem strCol_fix_through_mE {n1 : String} {f1 : String → String} {n2 : String}
    {fE : Cell → Except String Cell} {df df2 : DFrame}
    (hne : n1 ≠ n2)
    (hfix : strCol n1 f1 df = Except.ok df)
    (h2 : mapColCellsE n2 fE df = Except.ok df2) :
    strCol n1 f1 df2 = Except.ok df2 := by
  have hcols := mapColCellsE_cols h2
  unfold mapColCellsE at h2
  rcases hc2 : df.colIdx n2 with _ | i2 <;> rw [hc2] at h2
  · cases h2
    exact hfix
  · rcases bindOkInv h2 with ⟨rows2, hrows2, h3⟩
    cases h3
    unfold strCol at hfix ⊢
    rw [hasCol_eq_of_cols hcols n1, dtypeOf_eq_of_cols hcols n1]
    split_ifs at hfix with hb1 hd1
    · rw [if_pos hb1, if_pos hd1]
      injection hfix with hXfix
      obtain ⟨i1, hi1⟩ := colIdxAux_some_of_any hb1
      have hne12 : i1 ≠ i2 := colIdx_ne_of_names hi1 hc2 hne
      refine congrArg Except.ok ?_
      refine mapColCells_fix_rows
        (show ({ df with rows := rows2 } : DFrame).colIdx n1 = some i1 from hi1) ?_
      intro r' hr'
      rcases mapMG_forall_mem hrows2 r' hr' with ⟨r, hr, hupd⟩
      rcases updateRowE_ok hupd with ⟨v, hv, rfl⟩
      exact row_fix_set hne12 (mapColCells_fix_pointwise hi1 hXfix r hr)
    · rw [if_neg hb1]

theorem strCol_fix_through_absCol {n1 : String} {f1 : String → String} {n2 : String}
    {df df2 : DFrame} (hne : n1 ≠ n2)
    (hfix : strCol n1 f1 df = Except.ok df)
    (h2 : absCol n2 df = Except.ok df2) :
    strCol n1 f1 df2 = Except.ok df2 := by
  unfold absCol at h2
  split_ifs at h2 with hb
  · rcases hd : df.dtypeOf n2 with _ | dt
    · rw [hd] at h2
      exact strCol_fix_through_mE hne hfix h2
    · cases dt
      · rw [hd] at h2
        exact strCol_fix_through_mE hne hfix h2
      · rw [hd] at h2
        exact strCol_fix_through_mE hne hfix h2
  · cases h2
    exact hfix

theorem cleanCustomers_fix {G E : DFrame} (h : cleanCustomers G = Except.ok E) :
    cleanCustomers E = Except.ok E := by
  unfold cleanCustomers at h ⊢
  rcases bindOkInv h with ⟨df1, h1, hrest⟩
  rcases bindOkInv hrest with ⟨df2, h2, hrest2⟩
  rcases bindOkInv hrest2 with ⟨df3, h3, h4⟩
  have f1 : strCol "email" pyLower df1 = Except.ok df1 := strCol_fix_self pyLower_idem h1
  have f1b := strCol_fix_through_strCol (by decide) f1 h2
  have f1c := strCol_fix_through_strCol (by decide) f1b h3
  have f1d := strCol_fix_through_strCol (by decide) f1c h4
  have f2 : strCol "phone" keepDigits df2 = Except.ok df2 :=
    strCol_fix_self keepDigits_idem h2
  have f2b := strCol_fix_through_strCol (by decide) f2 h3
  have f2c := strCol_fix_through_strCol (by decide) f2b h4
  have f3 : strCol "first_name" pyTitle df3 = Except.ok df3 :=
    strCol_fix_self pyTitle_idem h3
  have f3b := strCol_fix_through_strCol (by decide) f3 h4
  have f4 : strCol "last_name" pyTitle E = Except.ok E := strCol_fix_self pyTitle_idem h4
  simp only [f1d, bind_ok_reduce, f2c, f3b, f4]

theorem cleanProducts_fix {G E : DFrame} (h : cleanProducts G = Except.ok E) :
    cleanProducts E = Except.ok E := by
  unfold cleanProducts at h ⊢
  rcases bindOkInv h with ⟨df1, h1, h2⟩
  have f1 : strCol "product_name" pyTitle df1 = Except.ok df1 :=
    strCol_fix_self pyTitle_idem h1
  have f1b := strCol_fix_through_absCol (by decide) f1 h2
  have f2 : absCol "price" E = Except.ok E := absCol_fix_self h2
  simp only [f1b, bind_ok_reduce, f2]

theorem objectCleanCell_clean (c : Cell) : cleanObjCell (objectCleanCell c) := by
  unfold objectCleanCell
  by_cases hs : pyStrip (pyStrOfCell c) = ""
  · rw [if_pos hs]
    exact Or.inl rfl
  · rw [if_neg hs]
    refine Or.inr ⟨_, rfl, ?_⟩
    show stripChars (stripChars (pyStrOfCell c).data) = stripChars (pyStrOfCell c).data
    exact stripChars_idem _

theorem objectCleanCell_eq_self {c : Cell} (hc : cleanObjCell c)
    (h1 : c ≠ Cell.null) (h2 : c ≠ Cell.str "") : objectCleanCell c = c := by
  rcases hc with h | ⟨s, rfl, hs⟩
  · exact absurd h h1
  · unfold objectCleanCell
    have hstr : pyStrip (pyStrOfCell (Cell.str s)) = s := by
      show (⟨stripChars s.data⟩ : String) = s
      rw [hs]
    rw [hstr, if_neg (fun he => h2 (by rw [he]))]

theorem cleanFrame_cell {df : DFrame} (h : CleanFrame df) {r : List Cell} (hr : r ∈ df.rows)
    {j : Nat} {col : Col} {c : Cell} (hcol : df.cols[j]? = some col) (hc : r[j]? = some c)
    (hobj : col.dtype = DType.obj) : cleanObjCell c :=
  h r hr (col, c) (getElem?_mem_zip hcol hc) hobj

theorem cleanFrame_genericStringClean (df : DFrame) : CleanFrame (genericStringClean df) := by
  intro r' hr' p hp hobj
  rcases List.mem_map.mp hr' with ⟨r, _, rfl⟩
  rcases mem_zip_getElem? hp with ⟨j, hcol, hcell⟩
  rcases zipWith_getElem?_inv _ df.cols r j hcell with ⟨col, c, hcolj, _, hpc⟩
  have hcols : (genericStringClean df).cols = df.cols := rfl
  rw [hcols, hcolj] at hcol
  have hcoleq := Option.some.inj hcol
  rw [← hcoleq] at hobj
  rw [hpc, if_pos hobj]
  exact objectCleanCell_clean c

theorem WF_genericStringClean {df : DFrame} (hwf : df.WF) : (genericStringClean df).WF := by
  intro r' hr'
  rcases List.mem_map.mp hr' with ⟨r, hr, rfl⟩
  show (List.zipWith _ df.cols r).length = df.cols.length
  rw [List.length_zipWith, hwf r hr, Nat.min_self]

theorem dedupAux_subset : ∀ (l seen : List (List Cell)) (r : List Cell),
    r ∈ dedupAux seen l → r ∈ l := by
  intro l
  induction l with
  | nil => intro seen r h; cases h
  | cons a l ih =>
    intro seen r h
    unfold dedupAux at h
    by_cases hc : seen.contains a = true
    · rw [if_pos hc] at h
      exact List.mem_cons_of_mem a (ih seen r h)
    · rw [if_neg hc] at h
      cases h with
      | head => exact List.mem_cons_self _ _
      | tail _ h2 => exact List.mem_cons_of_mem a (ih (a :: seen) r h2)

theorem WF_dedup {df : DFrame} (hwf : df.WF) :
    ({ df with rows := dedupKeepFirst df.rows } : DFrame).WF := by
  intro r hr
  exact hwf r (dedupAux_subset df.rows [] r hr)

theorem cleanFrame_mapColCells_strAcc {df : DFrame} {name : String} {f : String → String}
    (hcf : CleanFrame df)
    (hf : ∀ s : String, stripChars s.data = s.data → stripChars (f s).data = (f s).data) :
    CleanFrame (mapColCells name (strAcc f) df) := by
  rcases hc : df.colIdx name with _ | i
  · rw [show mapColCells name (strAcc f) df = df by unfold mapColCells; rw [hc]]
    exact hcf
  · intro r' hr' p hp hobj
    rw [show (mapColCells name (strAcc f) df).rows = df.rows.map
        (fun r => r.set i (strAcc f (r.getD i Cell.null))) from
      congrArg DFrame.rows (mapColCells_some hc)] at hr'
    rcases List.mem_map.mp hr' with ⟨r, hr, rfl⟩
    rcases mem_zip_getElem? hp with ⟨j, hcol, hcell⟩
    have hcols : (mapColCells name (strAcc f) df).cols = df.cols := mapColCells_cols _ _ _
    rw [hcols] at hcol
    by_cases hj : j = i
    · subst hj
      by_cases hlt : j < r.length
      · rw [List.getElem?_set_eq hlt] at hcell
        have hold : r[j]? = some (r.getD j Cell.null) := by
          rw [List.getD_eq_getElem?_getD, List.getElem?_eq_getElem hlt]
          rfl
        rw [← Option.some.inj hcell]
        rcases cleanFrame_cell hcf hr hcol hold hobj with hnull | ⟨s, hseq, hs⟩
        · rw [hnull]
          exact Or.inl rfl
        · rw [hseq]
          exact Or.inr ⟨f s, rfl, hf s hs⟩
      · rw [set_beyond r j _ (le_of_not_lt hlt),
          List.getElem?_eq_none (le_of_not_lt hlt)] at hcell
        cases hcell
    · rw [List.getElem?_set_ne (fun he => hj he.symm)] at hcell
      exact cleanFrame_cell hcf hr hcol hcell hobj

theorem WF_mapColCells {df : DFrame} (hwf : df.WF) (name : String) (g : Cell → Cell) :
    (mapColCells name g df).WF := by
  rcases hc : df.colIdx name with _ | i
  · rw [show mapColCells name g df = df by unfold mapColCells; rw [hc]]
    exact hwf
  · intro r' hr'
    rw [show (mapColCells name g df).rows = df.rows.map
        (fun r => r.set i (g (r.getD i Cell.null))) from
      congrArg DFrame.rows (mapColCells_some hc)] at hr'
    rcases List.mem_map.mp hr' with ⟨r, hr, rfl⟩
    rw [mapColCells_cols name g df, List.length_set]
    exact hwf r hr

theorem strCol_clean {df df2 : DFrame} {name : String} {f : String → String}
    (hcf : CleanFrame df) (hwf : df.WF)
    (hf : ∀ s : String, stripChars s.data = s.data → stripChars (f s).data = (f s).data)
    (h : strCol name f df = Except.ok df2) : CleanFrame df2 ∧ df2.WF := by
  unfold strCol at h
  split_ifs at h with h1 h2
  · cases h
    exact ⟨cleanFrame_mapColCells_strAcc hcf hf, WF_mapColCells hwf _ _⟩
  · cases h
    exact ⟨hcf, hwf⟩

theorem cleanFrame_mapColCellsE {df df2 : DFrame} {name : String}
    {fE : Cell → Except String Cell}
    (hcf : CleanFrame df) (hwf : df.WF)
    (hfE : ∀ c, cleanObjCell c → ∀ c', fE c = Except.ok c' → cleanObjCell c')
    (h : mapColCellsE name fE df = Except.ok df2) : CleanFrame df2 ∧ df2.WF := by
  rcases hc : df.colIdx name with _ | i
  · rw [mapColCellsE_none hc] at h
    cases h
    exact ⟨hcf, hwf⟩
  · rw [mapColCellsE_some hc] at h
    rcases bindOkInv h with ⟨rows2, hrows2, h2⟩
    cases h2
    constructor
    · intro r' hr' p hp hobj
      rcases mapMG_forall_mem hrows2 r' hr' with ⟨r, hr, hupd⟩
      rcases updateRowE_ok hupd with ⟨v, hv, rfl⟩
      rcases mem_zip_getElem? hp with ⟨j, hcol, hcell⟩
      by_cases hj : j = i
      · subst hj
        by_cases hlt : j < r.length
        · rw [List.getElem?_set_eq hlt] at hcell
          have hold : r[j]? = some (r.getD j Cell.null) := by
            rw [List.getD_eq_getElem?_getD, List.getElem?_eq_getElem hlt]
            rfl
          rw [← Option.some.inj hcell]
          exact hfE _ (cleanFrame_cell hcf hr hcol hold hobj) v hv
        · rw [set_beyond r j _ (le_of_not_lt hlt),
            List.getElem?_eq_none (le_of_not_lt hlt)] at hcell
          cases hcell
      · rw [List.getElem?_set_ne (fun he => hj he.symm)] at hcell
        exact cleanFrame_cell hcf hr hcol hcell hobj
    · intro r' hr'
      rcases mapMG_forall_mem hrows2 r' hr' with ⟨r, hr, hupd⟩
      rcases updateRowE_ok hupd with ⟨v, hv, rfl⟩
      show (r.set i v).length = df.cols.length
      rw [List.length_set]
      exact hwf r hr

theorem cellAbsNum_cleanPres :
    ∀ c, cleanObjCell c → ∀ c', cellAbsNum c = Except.ok c' → cleanObjCell c' := by
  intro c hc c' h
  rcases hc with rfl | ⟨s, rfl, _⟩
  · cases h
    exact Or.inl rfl
  · cases h

theorem cellAbsObj_cleanPres :
    ∀ c, cleanObjCell c → ∀ c', cellAbsObj c = Except.ok c' → cleanObjCell c' := by
  intro c hc c' h
  rcases hc with rfl | ⟨s, rfl, _⟩
  · cases h
  · cases h

theorem absCol_clean {df df2 : DFrame} {name : String}
    (hcf : CleanFrame df) (hwf : df.WF)
    (h : absCol name df = Except.ok df2) : CleanFrame df2 ∧ df2.WF := by
  unfold absCol at h
  split_ifs at h with h1
  · rcases hd : df.dtypeOf name with _ | dt
    · rw [hd] at h
      exact cleanFrame_mapColCellsE hcf hwf cellAbsNum_cleanPres h
    · cases dt
      · rw [hd] at h
        exact cleanFrame_mapColCellsE hcf hwf cellAbsObj_cleanPres h
      · rw [hd] at h
        exact cleanFrame_mapColCellsE hcf hwf cellAbsNum_cleanPres h
  · cases h
    exact ⟨hcf, hwf⟩

theorem clean_data_cleanFrame {D E : DFrame} {t : String} (hwf : D.WF)
    (h : clean_data D t = Except.ok E) : CleanFrame E ∧ E.WF := by
  have hGcf : CleanFrame (genericStringClean { D with rows := dedupKeepFirst D.rows }) :=
    cleanFrame_genericStringClean _
  have hGwf : (genericStringClean { D with rows := dedupKeepFirst D.rows }).WF :=
    WF_genericStringClean (WF_dedup hwf)
  unfold clean_data at h
  split_ifs at h with h1 h2
  · unfold cleanCustomers at h
    rcases bindOkInv h with ⟨df1, hh1, hrest⟩
    rcases bindOkInv hrest with ⟨df2, hh2, hrest2⟩
    rcases bindOkInv hrest2 with ⟨df3, hh3, hh4⟩
    have s1 := strCol_clean hGcf hGwf (fun _ hs => strip_pyLower hs) hh1
    have s2 := strCol_clean s1.1 s1.2 (fun s _ => strip_keepDigits s) hh2
    have s3 := strCol_clean s2.1 s2.2 (fun _ hs => strip_pyTitle hs) hh3
    exact strCol_clean s3.1 s3.2 (fun _ hs => strip_pyTitle hs) hh4
  · unfold cleanProducts at h
    rcases bindOkInv h with ⟨df1, hh1, hh2⟩
    have s1 := strCol_clean hGcf hGwf (fun _ hs => strip_pyTitle hs) hh1
    exact absCol_clean s1.1 s1.2 hh2
  · cases h
    exact ⟨hGcf, hGwf⟩

theorem genericStringClean_id {df : DFrame} (hwf : df.WF) (hcf : CleanFrame df)
    (hne : NoNullNoEmptyObj df) : genericStringClean df = df := by
  have hrows : df.rows.map (fun r => List.zipWith
      (fun (col : Col) c => if col.dtype = DType.obj then objectCleanCell c else c)
      df.cols r) = df.rows := by
    apply map_eq_self_of
    intro r hr
    refine zipWith_eq_right _ df.cols r (le_of_eq (hwf r hr)) ?_
    intro j col c hcol hc
    by_cases hobj : col.dtype = DType.obj
    · rw [if_pos hobj]
      have hmem := getElem?_mem_zip hcol hc
      rcases hne r hr (col, c) hmem hobj with ⟨hn, he⟩
      exact objectCleanCell_eq_self (hcf r hr (col, c) hmem hobj) hn he
    · rw [if_neg hobj]
  unfold genericStringClean
  rw [hrows]

/-- C3 (amended): clean_data is idempotent exactly on outputs that the
second pass cannot disturb — if the first cleaning returns E and E has no
duplicate rows left to drop and no null or empty-string cell in any object
column, then cleaning E again returns E unchanged.  (The unconditional
claim fails: a second pass renders first-pass nulls as the string None and
can drop rows that became duplicates only after stripping.) -/
theorem C3_clean_idempotent_amended (D E : DFrame) (t : String) (hwf : D.WF)
    (h : clean_data D t = Except.ok E)
    (hnd : dedupKeepFirst E.rows = E.rows)
    (hne : NoNullNoEmptyObj E) :
    clean_data E t = Except.ok E := by
  obtain ⟨hcf, hewf⟩ := clean_data_cleanFrame hwf h
  have hded : ({ E with rows := dedupKeepFirst E.rows } : DFrame) = E := by
    rw [hnd]
  have hgen : genericStringClean E = E := genericStringClean_id hewf hcf hne
  simp only [clean_data] at h ⊢
  rw [hded, hgen]
  split_ifs at h ⊢ with h1 h2
  · exact cleanCustomers_fix h
  · exact cleanProducts_fix h
  · rfl

/-- Witness for C3: a padded mixed-case email cleans to a lower-cased
stripped value, and cleaning that output again leaves it unchanged. -/
theorem C3_witness :
    clean_data customersSpaced "customers" = Except.ok customersCleanE ∧
    clean_data customersCleanE "customers" = Except.ok customersCleanE := by
  have h1 : clean_data customersSpaced "customers" = Except.ok customersCleanE := by
    with_unfolding_all rfl
  refine ⟨h1, ?_⟩
  refine C3_clean_idempotent_amended customersSpaced customersCleanE "customers" ?_ h1 ?_ ?_
  · intro r hr
    simp [customersSpaced] at hr
    subst hr
    rfl
  · with_unfolding_all rfl
  · intro r hr p hp _
    simp [customersCleanE] at hr
    subst hr
    simp [customersCleanE, List.zip, List.zipWith] at hp
    subst hp
    exact ⟨by decide, by decide⟩

end ETL
